import Mathlib

/-!
Verification development for the NIO digital-twin simulation core
(`src/simulation/engine.py` and `src/simulation/models.py`).

The Python program is a single-threaded discrete-event simulation built on
simpy.  We embed it shallowly:

* Python's global `random` module (a seeded Mersenne Twister) is modelled by
  an explicit pseudo-random generator state (`randStep`, a linear
  congruential stand-in).  Every sampling primitive used by the source
  (`random.random`, `random.uniform`, `random.randint`, `random.choice`)
  is modelled as a pure function of that state, returning the new state and
  the sample.  Claims about sampled values only use the range facts
  (`uniform a b ∈ [a, b]`, `randint a b ∈ [a, b]`), which the model
  satisfies and the real generator satisfies as well; theorems that need a
  particular sample quantify over the sample within its documented range.
* `time.time()` (wall-clock readings, stored in production/quality history
  entries and never branched on) is modelled as an abstract infinite stream
  `w : Nat → ℚ` of readings.  The executable machine records the index of
  each `time.time()` call; `applyWallState w` substitutes the readings.
* simpy's cooperative scheduler is modelled explicitly: an event queue of
  `(time, priority, insertion id, continuation)` entries, popped in
  lexicographic order exactly as simpy's heap does (priority 0 = URGENT for
  process-start events created by `env.process`, 1 = NORMAL for timeouts
  and process-termination events).  Each Python generator becomes a state
  machine whose states are its suspension points; the code between two
  suspension points runs as one atomic `resume` step, exactly as in simpy,
  where a process never yields control between two `yield` statements.
* an uncaught exception inside a process is re-raised out of `env.run`
  (simpy's documented behaviour), which `run_simulation` catches; the run
  loop is therefore parametrised by a resumption function that may fail
  (`Except String`), the fault-free instance being the actual program.

Simulated time and durations are exact rationals (ℚ); Python floats are
not modelled bit-for-bit, but no claim in scope depends on rounding of
float arithmetic (all comparisons in the source are order comparisons of
freshly sampled values).
-/

set_option maxRecDepth 8000

namespace DigitalTwin

/-! ### Model of the `random` module -/

/-- One step of the pseudo-random generator standing in for Python's
seeded Mersenne Twister (a 31-bit linear congruential generator). -/
def randStep (s : Nat) : Nat := (1103515245 * s + 12345) % 2147483648

/-- Model of `random.random()`: a fresh value in `[0, 1)`. -/
def randomUnit (s : Nat) : Nat × ℚ :=
  (randStep s, (randStep s : ℚ) / 2147483648)

/-- Model of `random.uniform(a, b)`: `a + (b - a) * random()`. -/
def uniform (a b : ℚ) (s : Nat) : Nat × ℚ :=
  (randStep s, a + (b - a) * ((randStep s : ℚ) / 2147483648))

/-- Model of `random.randint(a, b)` (both endpoints included). -/
def randint (a b : Nat) (s : Nat) : Nat × Nat :=
  (randStep s, a + randStep s % (b - a + 1))

/-- Model of `random.choice(l)` for a non-empty list `l`; the default `d`
is only used when `l` is empty (the source never calls `choice` on an
empty sequence). -/
def choice {α : Type} (l : List α) (d : α) (s : Nat) : Nat × α :=
  (randStep s, l.getD (randStep s % l.length) d)

/-- Model of `random.seed(seed)` from `SimulationEngine.__init__`. -/
def seedRng (seed : Nat) : Nat := seed % 2147483648

/-! ### Data model (`src/simulation/models.py`)

`Vehicle` is parametrised by the type `τ` of wall-clock readings: the
executable machine instantiates `τ := Nat` (the index of the `time.time()`
call), and `applyWallState` maps it to `τ := ℚ` (the readings
themselves). -/

/-- An attribute value inside a component-details dictionary
(`models.py` stores strings and integers). -/
inductive AttrV where
  | str (v : String)
  | nat (v : Nat)
deriving DecidableEq, Repr

/-- One entry of `Vehicle.production_history`: `update_status` appends a
pair `("Status updated to <s>", time.time())` (modelled structurally as
the new status plus the reading), and `add_production_step` appends a
triple `(step_name, time.time(), description)`. -/
inductive HistEntryT (τ : Type) where
  | statusUpd (newStatus : String) (t : τ)
  | step (name : String) (t : τ) (note : String)
deriving DecidableEq, Repr

/-- One quality-history entry body: `SimulationEngine.inspect_vehicle`
appends `score`/`result` (`basic`), while
`QualityCheck.perform_quality_check` appends the three sub-scores, the
overall score and the verdict (`detailed`). -/
inductive QCDetails where
  | basic (score : ℚ) (result : String)
  | detailed (assembly_score paint_score performance_score overall_score : ℚ)
      (result : String)
deriving DecidableEq, Repr

/-- The `Vehicle` class (`models.py:32`).  `additional_features` keeps only
its one randomly sampled entry (`autonomous_driving`); the two constant
entries carry no information. -/
structure VehicleT (τ : Type) where
  id : Nat
  creation_time : ℚ
  status : String
  color : String
  engine_type : String
  components : List (String × List (String × AttrV))
  production_history : List (HistEntryT τ)
  quality_history : List (QCDetails × τ)
  maintenance_needed : Bool
  autonomous_driving : Bool
deriving DecidableEq, Repr

abbrev Vehicle := VehicleT Nat

/-- Placeholder vehicle used as the (never hit) default of list lookups. -/
def vehicleDefault : VehicleT τ :=
  { id := 0, creation_time := 0, status := "", color := "", engine_type := ""
    components := [], production_history := [], quality_history := []
    maintenance_needed := false, autonomous_driving := false }

/-- Body of `Vehicle.__init__` (`models.py:48`) with the three sampled
fields passed in explicitly. -/
def vehicleInit (vehicle_id : Nat) (creation_time : ℚ)
    (color engine_type : String) (autonomous : Bool) : Vehicle :=
  { id := vehicle_id, creation_time, status := "created", color, engine_type
    components := [], production_history := [], quality_history := []
    maintenance_needed := false, autonomous_driving := autonomous }

/-- The `Vehicle(vehicle_id, creation_time)` constructor including its
three `random.choice` calls, in source order (color, engine type,
`autonomous_driving`). -/
def vehicleNew (vehicle_id : Nat) (creation_time : ℚ) (rng : Nat) :
    Nat × Vehicle :=
  let pc := choice ["Red", "Blue", "Green", "Black", "White"] "Red" rng
  let pe := choice ["Electric", "Hybrid", "Internal Combustion"] "Electric" pc.1
  let pa := choice [true, false] true pe.1
  (pa.1, vehicleInit vehicle_id creation_time pc.2 pe.2 pa.2)

/-- `Vehicle.update_status` (`models.py:64`): set the status and append a
history entry; the second component is the next wall-clock call index. -/
def update_status (v : Vehicle) (new_status : String) (w : Nat) :
    Vehicle × Nat :=
  ({ v with status := new_status
            production_history :=
              v.production_history ++ [.statusUpd new_status w] }, w + 1)

/-- `Vehicle.add_production_step` (`models.py:69`). -/
def add_production_step (v : Vehicle) (step_name note : String) (w : Nat) :
    Vehicle × Nat :=
  ({ v with production_history :=
              v.production_history ++ [.step step_name w note] }, w + 1)

/-- `Vehicle.add_quality_check` (`models.py:74`). -/
def add_quality_check (v : Vehicle) (d : QCDetails) (w : Nat) :
    Vehicle × Nat :=
  ({ v with quality_history := v.quality_history ++ [(d, w)] }, w + 1)

/-- `Vehicle.add_component` (`models.py:79`): store the details and append
an installation step. -/
def add_component (v : Vehicle) (component_name : String)
    (details : List (String × AttrV)) (w : Nat) : Vehicle × Nat :=
  add_production_step
    { v with components := v.components ++ [(component_name, details)] }
    ("Installed " ++ component_name) "Component installation completed." w

/-- `Vehicle.mark_for_maintenance` (`models.py:84`). -/
def mark_for_maintenance (v : Vehicle) (w : Nat) : Vehicle × Nat :=
  add_production_step { v with maintenance_needed := true }
    "Marked for maintenance" "Quality issues detected." w

/-! ### Production-line data and the station blocks

Each `*_station` generator of `ProductionLine` (`models.py:152-233`) has
exactly one suspension point (`yield self.env.timeout(duration)`).  Its
code before the yield is the `*_enter` function below; its code after the
yield is the `*_exit` function.  Sampled values used after the yield are
passed in as arguments; the caller samples them in source order. -/

/-- State of a `ProductionLine` (`models.py:108`): the monotone counter and
the ledger of all vehicles ever produced. -/
structure LineStateT (τ : Type) where
  vehicle_count : Nat
  vehicles : List (VehicleT τ)
deriving DecidableEq, Repr

abbrev LineState := LineStateT Nat

/-- An empty production line, as built by `ProductionLine.__init__`. -/
def lineInit : LineState := { vehicle_count := 0, vehicles := [] }

/-- `ProductionLine.produce_vehicle` (`models.py:122`): bump the counter,
create the vehicle (three samples), append it to the ledger, and record
the "Vehicle Produced" step.  Returns the new line, the vehicle, the new
generator state and the next wall index. -/
def produce_vehicle (ln : LineState) (now : ℚ) (rng w : Nat) :
    LineState × Vehicle × Nat × Nat :=
  let count := ln.vehicle_count + 1
  let pv := vehicleNew count now rng
  let ps := add_production_step pv.2 "Vehicle Produced"
    "Vehicle creation completed." w
  ({ vehicle_count := count, vehicles := ln.vehicles ++ [ps.1] },
    ps.1, pv.1, ps.2)

/-- `ProductionLine.get_produced_count` (`models.py:235`). -/
def get_produced_count (ln : LineStateT τ) : Nat := ln.vehicles.length

/-- `welding_station`, before the yield (`models.py:156-157`). -/
def welding_enter (v : Vehicle) (w : Nat) : Vehicle × Nat :=
  let p := update_status v "welding" w
  add_production_step p.1 "Welding started" "" p.2

/-- `welding_station`, after the yield (`models.py:161`). -/
def welding_exit (v : Vehicle) (w : Nat) : Vehicle × Nat :=
  add_production_step v "Welding completed" "" w

/-- `assembly_station`, before the yield (`models.py:168-169`). -/
def assembly_enter (v : Vehicle) (w : Nat) : Vehicle × Nat :=
  let p := update_status v "assembly" w
  add_production_step p.1 "Assembly started" "" p.2

/-- `assembly_station`, after the yield (`models.py:174-176`): install the
chassis (sampled quality grade) and the engine (sampled horsepower), then
record completion. -/
def assembly_exit (v : Vehicle) (grade : String) (horsepower : Nat)
    (w : Nat) : Vehicle × Nat :=
  let p1 := add_component v "Chassis"
    [("material", .str "Aluminum"), ("quality", .str grade)] w
  let p2 := add_component p1.1 "Engine"
    [("type", .str v.engine_type), ("horsepower", .nat horsepower)] p1.2
  add_production_step p2.1 "Assembly completed"
    "Chassis and Engine installed." p2.2

/-- `painting_station`, before the yield (`models.py:183-184`). -/
def painting_enter (v : Vehicle) (w : Nat) : Vehicle × Nat :=
  let p := update_status v "painting" w
  add_production_step p.1 "Painting started" "" p.2

/-- `painting_station`, after the yield (`models.py:189-190`): apply the
freshly sampled color. -/
def painting_exit (v : Vehicle) (new_color : String) (w : Nat) :
    Vehicle × Nat :=
  add_production_step { v with color := new_color } "Painting completed"
    ("Color applied: " ++ new_color) w

/-- `inspection_station`, before the yield (`models.py:197-198`). -/
def inspection_enter (v : Vehicle) (w : Nat) : Vehicle × Nat :=
  let p := update_status v "inspection" w
  add_production_step p.1 "Inspection started" "" p.2

/-- `inspection_station`, after the yield (`models.py:202`). -/
def inspection_exit (v : Vehicle) (w : Nat) : Vehicle × Nat :=
  add_production_step v "Inspection completed" "" w

/-- `testing_station`, before the yield (`models.py:209-210`). -/
def testing_enter (v : Vehicle) (w : Nat) : Vehicle × Nat :=
  let p := update_status v "testing" w
  add_production_step p.1 "Testing started" "" p.2

/-- `testing_station`, after the yield (`models.py:215-221`): sample the
performance outcome; below `0.5` the vehicle is flagged for
maintenance. -/
def testing_exit (v : Vehicle) (performance : ℚ) (w : Nat) : Vehicle × Nat :=
  if performance < 1/2 then
    let p := add_production_step v "Testing failed"
      "Performance below threshold" w
    mark_for_maintenance p.1 p.2
  else
    add_production_step v "Testing passed" "Performance meets standard" w

/-- `packaging_station`, before the yield (`models.py:227-228`). -/
def packaging_enter (v : Vehicle) (w : Nat) : Vehicle × Nat :=
  let p := update_status v "packaging" w
  add_production_step p.1 "Packaging started" "" p.2

/-- `packaging_station`, after the yield (`models.py:232`). -/
def packaging_exit (v : Vehicle) (w : Nat) : Vehicle × Nat :=
  add_production_step v "Packaging completed" "Vehicle ready for delivery" w

/-! ### Quality checks -/

/-- The verdict of `SimulationEngine.inspect_vehicle` (`engine.py:192`):
strictly above `0.7` passes. -/
def inspect_result (quality_score : ℚ) : String :=
  if quality_score > 7/10 then "passed" else "failed"

/-- The verdict of `QualityCheck.perform_quality_check`
(`models.py:293-295`): all three thresholds (`0.75`, `0.80`, `0.70`,
set in `QualityCheck.__init__`) must be met. -/
def quality_check_result (assembly_score paint_score performance_score : ℚ) :
    String :=
  if assembly_score ≥ 3/4 ∧ paint_score ≥ 4/5 ∧ performance_score ≥ 7/10
  then "passed" else "failed"

/-- Model of Python's `round(x, 2)` on the sampled scores (half-up on
exact rationals; the source rounds binary floats, which can differ only on
exact ties, and the rounded fields are never branched on). -/
def round2 (q : ℚ) : ℚ := (⌊q * 100 + 1/2⌋ : ℚ) / 100

/-- `QualityCheck.perform_quality_check` after its yield
(`models.py:289-303`), with the three sampled scores passed in: build the
detailed result and append it to the vehicle's quality history. -/
def perform_quality_check (v : Vehicle)
    (assembly_score paint_score performance_score : ℚ) (w : Nat) :
    Vehicle × Nat :=
  let overall_score := (assembly_score + paint_score + performance_score) / 3
  add_quality_check v
    (.detailed (round2 assembly_score) (round2 paint_score)
      (round2 performance_score) (round2 overall_score)
      (quality_check_result assembly_score paint_score performance_score)) w

/-! ### The engine state machine (`src/simulation/engine.py`)

Every generator registered with the simpy environment becomes an inductive
program counter naming its suspension points; the code between two
suspension points is one case of `resume`.  `childStart` states model the
URGENT `Initialize` event that simpy schedules when `env.process(...)`
creates a child process inside `yield env.process(...)`; `afterChild`
states model the NORMAL process-termination event through which the
waiting parent is resumed. -/

/-- Suspension points of `run_production_line` (`engine.py:68`) together
with the `process_vehicle` child process it spawns and waits for
(`models.py:133`). -/
inductive ProdPC where
  | loopCheck
  | procStart (vid : Nat)
  | weldDone (vid : Nat)
  | asmDone (vid : Nat)
  | paintDone (vid : Nat)
  | inspDone (vid : Nat)
  | testDone (vid : Nat)
  | packDone (vid : Nat)
  | afterProc
deriving DecidableEq, Repr

/-- Suspension points of `maintenance_process` (`engine.py:96`) and its
`perform_maintenance` child (`engine.py:116`). -/
inductive MaintPC where
  | start
  | cycle
  | childStart (i : Nat)
  | childDone (i : Nat) (dur : ℚ)
  | afterChild (i : Nat)
deriving DecidableEq, Repr

/-- Suspension points of `supply_chain_process` (`engine.py:134`) and its
`replenish_raw_materials` child (`engine.py:151`). -/
inductive SupplyPC where
  | start
  | check
  | childStart
  | childDone
  | afterChild
deriving DecidableEq, Repr

/-- Suspension points of `quality_control_process` (`engine.py:164`) and
its `inspect_vehicle` child (`engine.py:183`). -/
inductive QualPC where
  | start
  | cycle
  | childStart (i vid : Nat)
  | childDone (i vid : Nat)
  | afterChild (i : Nat)
  | postDelay
deriving DecidableEq, Repr

/-- A pending continuation: which process resumes, and where. -/
inductive Action where
  | prod (i : Nat) (pc : ProdPC)
  | maint (pc : MaintPC)
  | supply (pc : SupplyPC)
  | qual (pc : QualPC)
deriving DecidableEq, Repr

/-- A queue entry, mirroring simpy's `(time, priority, eid, event)` heap
keys: priority 0 is URGENT (process start), 1 is NORMAL (timeouts and
process termination). -/
structure Ev where
  time : ℚ
  prio : Nat
  eid : Nat
  act : Action
deriving DecidableEq, Repr

/-- One record of `SimulationEngine.maintenance_log` (`engine.py:125`);
`time` is `env.now` when the record is appended. -/
structure MaintenanceRecord where
  line : Nat
  time : ℚ
  duration : ℚ
deriving DecidableEq, Repr

/-- The mutable state of `SimulationEngine` plus the simpy environment:
generator state, wall-clock call counter, simulated clock, event-id
counter, event queue, the two production lines, the maintenance log and
the raw-material stock with its threshold. -/
structure EngStateT (τ : Type) where
  rng : Nat
  wallIdx : Nat
  now : ℚ
  nextEid : Nat
  queue : List Ev
  lines : List (LineStateT τ)
  maintenance_log : List MaintenanceRecord
  raw_material_stock : Int
  raw_material_threshold : Int
deriving DecidableEq, Repr

abbrev EngState := EngStateT Nat

/-- Schedule a continuation `delay` after the current time, with the given
priority, assigning the next event id (simpy `Environment.schedule`). -/
def schedule (s : EngState) (delay : ℚ) (prio : Nat) (act : Action) :
    EngState :=
  { s with queue := s.queue ++ [⟨s.now + delay, prio, s.nextEid, act⟩]
           nextEid := s.nextEid + 1 }

/-- Look up production line `i` (the source has exactly two lines;
indices are always in range). -/
def getLine (s : EngState) (i : Nat) : LineState := s.lines.getD i lineInit

/-- Write back production line `i`. -/
def setLine (s : EngState) (i : Nat) (ln : LineState) : EngState :=
  { s with lines := s.lines.set i ln }

/-- Look up a vehicle by id in a line's ledger.  Ids are assigned
sequentially from 1 and vehicles are never removed, so the vehicle with
id `vid` sits at index `vid - 1`. -/
def getVehicle (ln : LineState) (vid : Nat) : Vehicle :=
  ln.vehicles.getD (vid - 1) vehicleDefault

/-- Replace a vehicle (Python mutates the shared object in place). -/
def setVehicle (ln : LineState) (vid : Nat) (v : Vehicle) : LineState :=
  { ln with vehicles := ln.vehicles.set (vid - 1) v }

/-- The atomic blocks of `run_production_line` (`engine.py:68-94`) and of
the `process_vehicle` pipeline it spawns (`models.py:133-150`).  The
`loopCheck` block is the loop body up to its first suspension: the
stock check (`engine.py:78`), and when stock suffices, `produce_vehicle`,
the sampled consumption and the decrement (`engine.py:83-88`), then the
start of the child process.  Station blocks run `*_exit` of one station
and `*_enter` of the next, sampling durations in source order. -/
def prodResume (i : Nat) (pc : ProdPC) (s : EngState) : EngState :=
  match pc with
  | .loopCheck =>
    if s.raw_material_stock < 1 then
      schedule s 5 1 (.prod i .loopCheck)
    else
      let ln := getLine s i
      let pv := produce_vehicle ln s.now s.rng s.wallIdx
      let pm := randint 5 10 pv.2.2.1
      let s1 := { setLine s i pv.1 with
                    rng := pm.1, wallIdx := pv.2.2.2
                    raw_material_stock := s.raw_material_stock - pm.2 }
      schedule s1 0 0 (.prod i (.procStart pv.2.1.id))
  | .procStart vid =>
    let ln := getLine s i
    let p := welding_enter (getVehicle ln vid) s.wallIdx
    let pd := uniform 1 3 s.rng
    let s1 := { setLine s i (setVehicle ln vid p.1) with
                  rng := pd.1, wallIdx := p.2 }
    schedule s1 pd.2 1 (.prod i (.weldDone vid))
  | .weldDone vid =>
    let ln := getLine s i
    let p1 := welding_exit (getVehicle ln vid) s.wallIdx
    let p2 := assembly_enter p1.1 p1.2
    let pd := uniform 2 5 s.rng
    let s1 := { setLine s i (setVehicle ln vid p2.1) with
                  rng := pd.1, wallIdx := p2.2 }
    schedule s1 pd.2 1 (.prod i (.asmDone vid))
  | .asmDone vid =>
    let ln := getLine s i
    let pg := choice ["A", "B", "C"] "A" s.rng
    let ph := randint 150 400 pg.1
    let p1 := assembly_exit (getVehicle ln vid) pg.2 ph.2 s.wallIdx
    let p2 := painting_enter p1.1 p1.2
    let pd := uniform 1 3 ph.1
    let s1 := { setLine s i (setVehicle ln vid p2.1) with
                  rng := pd.1, wallIdx := p2.2 }
    schedule s1 pd.2 1 (.prod i (.paintDone vid))
  | .paintDone vid =>
    let ln := getLine s i
    let pcol :=
      choice ["Red", "Blue", "Green", "Black", "White", "Silver"] "Red" s.rng
    let p1 := painting_exit (getVehicle ln vid) pcol.2 s.wallIdx
    let p2 := inspection_enter p1.1 p1.2
    let pd := uniform 1 (5/2) pcol.1
    let s1 := { setLine s i (setVehicle ln vid p2.1) with
                  rng := pd.1, wallIdx := p2.2 }
    schedule s1 pd.2 1 (.prod i (.inspDone vid))
  | .inspDone vid =>
    let ln := getLine s i
    let p1 := inspection_exit (getVehicle ln vid) s.wallIdx
    let p2 := testing_enter p1.1 p1.2
    let pd := uniform 2 4 s.rng
    let s1 := { setLine s i (setVehicle ln vid p2.1) with
                  rng := pd.1, wallIdx := p2.2 }
    schedule s1 pd.2 1 (.prod i (.testDone vid))
  | .testDone vid =>
    let ln := getLine s i
    let pp := uniform 0 1 s.rng
    let p1 := testing_exit (getVehicle ln vid) pp.2 s.wallIdx
    let p2 := packaging_enter p1.1 p1.2
    let pd := uniform (1/2) (3/2) pp.1
    let s1 := { setLine s i (setVehicle ln vid p2.1) with
                  rng := pd.1, wallIdx := p2.2 }
    schedule s1 pd.2 1 (.prod i (.packDone vid))
  | .packDone vid =>
    let ln := getLine s i
    let p1 := packaging_exit (getVehicle ln vid) s.wallIdx
    let p2 := update_status p1.1 "completed" p1.2
    let s1 := { setLine s i (setVehicle ln vid p2.1) with wallIdx := p2.2 }
    schedule s1 0 1 (.prod i .afterProc)
  | .afterProc =>
    let pd := uniform (1/2) 2 s.rng
    schedule { s with rng := pd.1 } pd.2 1 (.prod i .loopCheck)

/-- The `for idx, line in enumerate(self.production_lines)` loop of
`maintenance_process` (`engine.py:108-114`) over the remaining line
indices: draw the 30% coin for each line until one needs maintenance
(then start the `perform_maintenance` child and suspend) or the sweep
ends (then wait the fixed 50-unit interval). -/
def maintenanceSweep (s : EngState) : List Nat → EngState
  | [] => schedule s 50 1 (.maint .cycle)
  | i :: rest =>
    let pr := randomUnit s.rng
    let s1 := { s with rng := pr.1 }
    if pr.2 < 3/10 then schedule s1 0 0 (.maint (.childStart i))
    else maintenanceSweep s1 rest

/-- Atomic blocks of `maintenance_process` and `perform_maintenance`
(`engine.py:96-132`). -/
def maintResume (pc : MaintPC) (s : EngState) : EngState :=
  match pc with
  | .start => schedule s 50 1 (.maint .cycle)
  | .cycle => maintenanceSweep s (List.range 2)
  | .childStart i =>
    let pd := uniform 5 15 s.rng
    schedule { s with rng := pd.1 } pd.2 1 (.maint (.childDone i pd.2))
  | .childDone i dur =>
    let s1 := { s with maintenance_log :=
                  s.maintenance_log ++ [⟨i + 1, s.now, dur⟩] }
    schedule s1 0 1 (.maint (.afterChild i))
  | .afterChild i => maintenanceSweep s ((List.range 2).filter (i < ·))

/-- Atomic blocks of `supply_chain_process` and
`replenish_raw_materials` (`engine.py:134-162`). -/
def supplyResume (pc : SupplyPC) (s : EngState) : EngState :=
  match pc with
  | .start => schedule s 20 1 (.supply .check)
  | .check =>
    if s.raw_material_stock < s.raw_material_threshold then
      schedule s 0 0 (.supply .childStart)
    else
      schedule s 20 1 (.supply .check)
  | .childStart =>
    let pd := uniform 10 20 s.rng
    schedule { s with rng := pd.1 } pd.2 1 (.supply .childDone)
  | .childDone =>
    let pa := randint 300 500 s.rng
    let s1 := { s with rng := pa.1
                       raw_material_stock := s.raw_material_stock + pa.2 }
    schedule s1 0 1 (.supply .afterChild)
  | .afterChild => schedule s 20 1 (.supply .check)

/-- The `for idx, line in enumerate(self.production_lines)` loop of
`quality_control_process` (`engine.py:174-179`) over the remaining line
indices: lines with vehicles get a uniformly chosen vehicle inspected by
an `inspect_vehicle` child; after the last line a 5-unit delay is
scheduled. -/
def qualitySweep (s : EngState) : List Nat → EngState
  | [] => schedule s 5 1 (.qual .postDelay)
  | i :: rest =>
    let ln := getLine s i
    if ln.vehicles.isEmpty then qualitySweep s rest
    else
      let pv := choice ln.vehicles vehicleDefault s.rng
      schedule { s with rng := pv.1 } 0 0 (.qual (.childStart i pv.2.id))

/-- Atomic blocks of `quality_control_process` and `inspect_vehicle`
(`engine.py:164-198`). -/
def qualResume (pc : QualPC) (s : EngState) : EngState :=
  match pc with
  | .start => schedule s 30 1 (.qual .cycle)
  | .cycle => qualitySweep s (List.range 2)
  | .childStart i vid =>
    let pd := uniform 1 3 s.rng
    schedule { s with rng := pd.1 } pd.2 1 (.qual (.childDone i vid))
  | .childDone i vid =>
    let pq := uniform 0 1 s.rng
    let ln := getLine s i
    let p1 := add_quality_check (getVehicle ln vid)
      (.basic pq.2 (inspect_result pq.2)) s.wallIdx
    let s1 := { setLine s i (setVehicle ln vid p1.1) with
                  rng := pq.1, wallIdx := p1.2 }
    schedule s1 0 1 (.qual (.afterChild i))
  | .afterChild i => qualitySweep s ((List.range 2).filter (i < ·))
  | .postDelay => schedule s 30 1 (.qual .cycle)

/-- One resumption: run the code of the popped continuation up to its next
suspension point.  This is the atomic unit of the cooperative scheduler —
no other process observes or modifies state inside one `resume`. -/
def resume (a : Action) (s : EngState) : EngState :=
  match a with
  | .prod i pc => prodResume i pc s
  | .maint pc => maintResume pc s
  | .supply pc => supplyResume pc s
  | .qual pc => qualResume pc s

/-! ### The run loop (`simpy.Environment.run` and
`SimulationEngine.run_simulation`) -/

/-- Lexicographic order on the heap keys `(time, prio, eid)`. -/
def evLe (a b : Ev) : Bool :=
  a.time < b.time ∨
    (a.time = b.time ∧
      (a.prio < b.prio ∨ (a.prio = b.prio ∧ a.eid ≤ b.eid)))

/-- Pop the earliest event (smallest `(time, prio, eid)`), as simpy's heap
does.  Event ids are unique, so the order is total and strict. -/
def popMin : List Ev → Option (Ev × List Ev)
  | [] => none
  | e :: rest =>
    match popMin rest with
    | none => some (e, [])
    | some (m, others) =>
      if evLe e m then some (e, rest) else some (m, e :: others)

/-- A resumption function that may fail, modelling a process body that
raises an uncaught exception (simpy re-raises it out of `env.run`).  The
actual program is the fault-free instance `resumeOk`. -/
abbrev ResumeFun := Action → EngState → Except String EngState

/-- The actual program: no process of the source ever raises. -/
def resumeOk : ResumeFun := fun a s => .ok (resume a s)

/-- The event loop of `env.run(until=horizon)` (fuel-bounded — simpy loops
until the stop event; every theorem below holds for every fuel): pop the
earliest event; if it is scheduled before the horizon, advance the clock
and resume its continuation, aborting with the fault if the resumption
raises; otherwise stop.  Events at or beyond the horizon stay in the
queue unconsumed, exactly as simpy leaves them when the URGENT stop event
fires. -/
def envRun (rf : ResumeFun) : Nat → ℚ → EngState →
    Option String × EngState
  | 0, _, s => (none, s)
  | fuel + 1, horizon, s =>
    match popMin s.queue with
    | none => (none, s)
    | some (e, rest) =>
      if e.time < horizon then
        match rf e.act { s with now := e.time, queue := rest } with
        | .ok s1 => envRun rf fuel horizon s1
        | .error f => (some f, { s with now := e.time, queue := rest })
      else (none, s)

/-- `SimulationEngine.__init__` (`engine.py:23-58`): seed the generator,
two empty lines, empty maintenance log, stock 1000, threshold 200. -/
def engineInitState (seed : Nat) : EngState :=
  { rng := seedRng seed, wallIdx := 0, now := 0, nextEid := 0, queue := []
    lines := [lineInit, lineInit], maintenance_log := []
    raw_material_stock := 1000, raw_material_threshold := 200 }

/-- The process registrations performed at the top of `run_simulation`
(`engine.py:206-214`): `start_production_processes` registers one
`run_production_line` process per line, then the maintenance, supply
chain and quality control processes are registered, in that order; each
registration schedules an URGENT start event at time 0. -/
def startProcesses (s : EngState) : EngState :=
  let s1 := schedule s 0 0 (.prod 0 .loopCheck)
  let s2 := schedule s1 0 0 (.prod 1 .loopCheck)
  let s3 := schedule s2 0 0 (.maint .start)
  let s4 := schedule s3 0 0 (.supply .start)
  schedule s4 0 0 (.qual .start)

/-- The data logged by `post_simulation_report` (`engine.py:227-241`):
per-line produced counts (via `get_produced_count`), their total, the
full maintenance log, and the final raw-material stock.  The report has
no error list. -/
structure Report where
  vehicles_per_line : List Nat
  total_vehicles : Nat
  maintenance_log : List MaintenanceRecord
  final_raw_material_stock : Int
deriving DecidableEq, Repr

/-- `post_simulation_report`, applicable to the machine state with either
wall representation. -/
def post_simulation_report (s : EngStateT τ) : Report :=
  { vehicles_per_line := s.lines.map get_produced_count
    total_vehicles := (s.lines.map get_produced_count).sum
    maintenance_log := s.maintenance_log
    final_raw_material_stock := s.raw_material_stock }

/-- `run_simulation` (`engine.py:200-225`) with an arbitrary (possibly
faulting) resumption function: register the processes, run the event
loop inside `try/except` — a fault is caught and logged, never
re-raised — and in all cases the `finally` block produces the report from
the engine state as it stands.  `env.run(until=d)` with `d ≤ env.now`
raises `ValueError` before processing any event; that exception is also
caught, so the report is produced from the initial state. -/
def runSimulationState (rf : ResumeFun) (fuel : Nat) (duration : ℚ)
    (seed : Nat) : EngState :=
  let s0 := startProcesses (engineInitState seed)
  if duration ≤ 0 then s0 else (envRun rf fuel duration s0).2

/-- The report returned by a (possibly fault-injected) `run_simulation`. -/
def run_simulationE (rf : ResumeFun) (fuel : Nat) (duration : ℚ)
    (seed : Nat) : Report :=
  post_simulation_report (runSimulationState rf fuel duration seed)

/-- The report of the actual program's `run_simulation`. -/
def run_simulation (fuel : Nat) (duration : ℚ) (seed : Nat) : Report :=
  run_simulationE resumeOk fuel duration seed

/-! ### Wall-clock substitution

The machine stores the index of each `time.time()` call; `applyWallState`
substitutes an arbitrary stream of wall-clock readings, giving the state
of the real program whose `k`-th `time.time()` call returned `w k`. -/

/-- Substitute wall readings into a history entry. -/
def applyWallHist (w : Nat → ℚ) : HistEntryT Nat → HistEntryT ℚ
  | .statusUpd ns t => .statusUpd ns (w t)
  | .step n t note => .step n (w t) note

/-- Substitute wall readings into a vehicle. -/
def applyWallVehicle (w : Nat → ℚ) (v : Vehicle) : VehicleT ℚ :=
  { v with production_history := v.production_history.map (applyWallHist w)
           quality_history :=
             v.quality_history.map (fun p => (p.1, w p.2)) }

/-- Substitute wall readings into a line. -/
def applyWallLine (w : Nat → ℚ) (ln : LineState) : LineStateT ℚ :=
  { ln with vehicles := ln.vehicles.map (applyWallVehicle w) }

/-- Substitute wall readings into the whole engine state. -/
def applyWallState (w : Nat → ℚ) (s : EngState) : EngStateT ℚ :=
  { s with lines := s.lines.map (applyWallLine w) }

/-- The final engine state of a run of the real program whose wall clock
produced the readings `w`: all state of the run except the wall-clock
readings stored in histories is a function of the seed alone. -/
def runWithWall (fuel : Nat) (duration : ℚ) (seed : Nat) (w : Nat → ℚ) :
    EngStateT ℚ :=
  applyWallState w (runSimulationState resumeOk fuel duration seed)

/-! ### Projections and auxiliary definitions used by individual claims -/

/-- The effect of one iteration of the production loop on the stock alone
(`engine.py:78-88`): if the stock is below 1 the iteration consumes
nothing (the line waits and repolls); otherwise it consumes the sampled
`material_used ∈ [5, 10]`.  This is the stock projection of the
`loopCheck` case of `prodResume` (see `prodResume_stock`). -/
def prodStockStep (stock : Int) (material_used : Nat) : Int :=
  if stock < 1 then stock else stock - material_used

/-- The full station order of the source: the status set by
`Vehicle.__init__`, the six statuses set at station entry in pipeline
order (`models.py:133-148`), and the final status set by
`process_vehicle` (`models.py:149`). -/
def statusSeq : List String :=
  ["created", "welding", "assembly", "painting", "inspection", "testing",
    "packaging", "completed"]

/-- The statuses recorded in a vehicle's production history, in order
(every status change goes through `update_status`, which appends an
entry). -/
def statusHistory (v : Vehicle) : List String :=
  v.production_history.filterMap fun e =>
    match e with
    | .statusUpd ns _ => some ns
    | .step _ _ _ => none

/-- The sequence of values the `status` field takes over the lifetime of a
vehicle built by `Vehicle.__init__` (initial status "created", then one
value per `update_status` call). -/
def statusValues (v : Vehicle) : List String := "created" :: statusHistory v

/-- Block `k` of the `process_vehicle` pipeline (`models.py:133-150`): the
code between its `k`-th and `(k+1)`-th suspension points, with the four
sampled values used by the blocks passed in.  Blocks 0-6 correspond to
the `procStart`, `weldDone`, …, `packDone` cases of `prodResume`. -/
def processVehicleBlock (grade : String) (horsepower : Nat)
    (new_color : String) (performance : ℚ) :
    Nat → Vehicle × Nat → Vehicle × Nat
  | 0, p => welding_enter p.1 p.2
  | 1, p => let q := welding_exit p.1 p.2; assembly_enter q.1 q.2
  | 2, p =>
    let q := assembly_exit p.1 grade horsepower p.2; painting_enter q.1 q.2
  | 3, p => let q := painting_exit p.1 new_color p.2; inspection_enter q.1 q.2
  | 4, p => let q := inspection_exit p.1 p.2; testing_enter q.1 q.2
  | 5, p => let q := testing_exit p.1 performance p.2; packaging_enter q.1 q.2
  | 6, p => let q := packaging_exit p.1 p.2; update_status q.1 "completed" q.2
  | _ + 7, p => p

/-- The `process_vehicle` pipeline interrupted after its first `n` blocks
(`n = 7` is the complete pipeline; smaller `n` is a run cut off at the
simulation horizon). -/
def process_vehicle_cut (grade : String) (horsepower : Nat)
    (new_color : String) (performance : ℚ) (v : Vehicle) (w : Nat) :
    Nat → Vehicle × Nat
  | 0 => (v, w)
  | n + 1 =>
    processVehicleBlock grade horsepower new_color performance n
      (process_vehicle_cut grade horsepower new_color performance v w n)

/-- The vehicle obtained by creating a fresh vehicle (`Vehicle.__init__`
with its three sampled fields passed in) and running the first `n` blocks
of the `process_vehicle` pipeline on it. -/
def cutVehicle (grade : String) (horsepower : Nat) (new_color : String)
    (performance : ℚ) (vehicle_id : Nat) (creation_time : ℚ)
    (color engine : String) (auto : Bool) (w n : Nat) : Vehicle :=
  (process_vehicle_cut grade horsepower new_color performance
    (vehicleInit vehicle_id creation_time color engine auto) w n).1

/-- A fault-injected resumption function exercising the error path of
`run_simulation`: the maintenance process raises an unrecoverable error
at its first periodic check (t = 50); every other process behaves exactly
as in the source. -/
def resumeFaulty : ResumeFun := fun a s =>
  if a = .maint .cycle then .error "boom" else .ok (resume a s)

/-! ### Definitions for the run-level stock invariant (claim C1)

The production loop can only drive the stock negative from a stock in
[1, 9], and the source's timing keeps the stock far above that: a line
consumes at most once per 8 time units (the six stations' minimum
durations sum to 7.5, `models.py:158,170,185,199,211,229`, plus the
0.5-minimum inter-arrival delay, `engine.py:94`), while the supply chain
checks every 20 units (`engine.py:144`) and lands a replenishment of at
least 300 within at most 20 more units (`engine.py:158-160`).  The
definitions below turn that argument into an inductive invariant of the
event-queue machine. -/

/-- The registered process a pending continuation belongs to. -/
inductive Owner where
  | line (i : Nat)
  | maintenanceProc
  | supplyProc
  | qualityProc
deriving DecidableEq, Repr

/-- Owner of an action: each resumption schedules only continuations of
its own process. -/
def actionOwner : Action → Owner
  | .prod i _ => .line i
  | .maint _ => .maintenanceProc
  | .supply _ => .supplyProc
  | .qual _ => .qualityProc

/-- Owner of a pending event. -/
def evOwner (e : Ev) : Owner := actionOwner e.act

/-- Minimum time from a production line's pending continuation until the
line's next possible stock consumption (which happens only at a
`loopCheck` resumption): the sum of the minimum durations of the
remaining stations (welding 1, assembly 2, painting 1, inspection 1,
testing 2, packaging 0.5) plus the minimum 0.5 inter-arrival delay. -/
def lineSlack : ProdPC → ℚ
  | .loopCheck => 0
  | .procStart _ => 8
  | .weldDone _ => 7
  | .asmDone _ => 5
  | .paintDone _ => 4
  | .inspDone _ => 3
  | .testDone _ => 1
  | .packDone _ => 1/2
  | .afterProc => 1/2

/-- Earliest possible next consumption time of the line owning the
pending event `e` (junk 0 slack for events of other processes). -/
def evLineF (e : Ev) : ℚ :=
  e.time + match e.act with
  | .prod _ pc => lineSlack pc
  | _ => 0

/-- Upper bound, in stock units, on what one production line can consume
through time `X` when its next consumption cannot happen before `F` and
consecutive consumptions are at least 8 time units apart: at most
`(X - F)/8 + 1` consumptions (a natural number below that real bound) of
at most 10 units each. -/
def lineCap (F X : ℚ) : ℚ := 10 * max 0 ((X - F) / 8 + 1)

/-- Deadline by which the supply chain, from its pending continuation at
time `T`, either lands a replenishment of at least 300 units or observes
a stock of at least 200 at a periodic check: a pending `childDone` lands
at its own time; an order placed at a `check` lands within the 20-unit
maximum lead time; after process start or a completed replenishment the
next check fires within 20 units and its order lands within 20 more. -/
def supplyDeadline : SupplyPC → ℚ → ℚ
  | .start, T => T + 40
  | .check, T => T + 20
  | .childStart, T => T + 20
  | .childDone, T => T
  | .afterChild, T => T + 40

/-- Supply deadline of a pending event (junk 0 for other processes). -/
def evSupplyDeadline (e : Ev) : ℚ :=
  match e.act with
  | .supply pc => supplyDeadline pc e.time
  | _ => 0

/-- The inductive run invariant behind claim C1: all pending events lie
in the future of the clock; the queue holds exactly one pending
continuation per registered process; the replenishment threshold is the
configured 200 (`engine.py:56`); and the stock exceeds, by at least one
unit, everything the two production lines can still consume before the
supply chain's guaranteed-progress deadline.  The bound is stated for
all choices of the (unique) line-0, line-1 and supply events. -/
structure EngInv (s : EngState) : Prop where
  times : ∀ e ∈ s.queue, s.now ≤ e.time
  owners : (s.queue.map evOwner).Perm
    [.line 0, .line 1, .maintenanceProc, .supplyProc, .qualityProc]
  thresh : s.raw_material_threshold = 200
  bound : ∀ e0 ∈ s.queue, ∀ e1 ∈ s.queue, ∀ es ∈ s.queue,
    evOwner e0 = .line 0 → evOwner e1 = .line 1 →
    evOwner es = .supplyProc →
    1 + lineCap (evLineF e0) (evSupplyDeadline es)
      + lineCap (evLineF e1) (evSupplyDeadline es)
      ≤ (s.raw_material_stock : ℚ)

/-! ## Shared lemmas about the sampling model -/

theorem randStep_lt (s : Nat) : randStep s < 2147483648 :=
  Nat.mod_lt _ (by norm_num)

theorem unitFrac_mem (s : Nat) :
    0 ≤ ((randStep s : ℚ) / 2147483648) ∧
      ((randStep s : ℚ) / 2147483648) ≤ 1 := by
  constructor
  · positivity
  · rw [div_le_one (by norm_num)]
    exact_mod_cast (randStep_lt s).le

theorem uniform_mem (a b : ℚ) (h : a ≤ b) (s : Nat) :
    a ≤ (uniform a b s).2 ∧ (uniform a b s).2 ≤ b := by
  obtain ⟨h0, h1⟩ := unitFrac_mem s
  unfold uniform
  constructor
  · have : 0 ≤ (b - a) * ((randStep s : ℚ) / 2147483648) :=
      mul_nonneg (sub_nonneg.2 h) h0
    simpa using by linarith
  · have : (b - a) * ((randStep s : ℚ) / 2147483648) ≤ (b - a) * 1 :=
      mul_le_mul_of_nonneg_left h1 (sub_nonneg.2 h)
    simpa using by linarith

theorem randint_mem (a b : Nat) (h : a ≤ b) (s : Nat) :
    a ≤ (randint a b s).2 ∧ (randint a b s).2 ≤ b := by
  unfold randint
  have hlt : randStep s % (b - a + 1) < b - a + 1 :=
    Nat.mod_lt _ (Nat.succ_pos _)
  omega

/-! ## Shared structural lemmas about the machine -/

theorem prodResume_stock (i : Nat) (s : EngState) :
    (prodResume i .loopCheck s).raw_material_stock
      = prodStockStep s.raw_material_stock
          (randint 5 10
            (vehicleNew ((getLine s i).vehicle_count + 1) s.now s.rng).1).2 := by
  rw [prodResume, prodStockStep]
  by_cases h : s.raw_material_stock < 1
  · rw [if_pos h, if_pos h]
    dsimp only [schedule]
  · rw [if_neg h, if_neg h]
    dsimp only [schedule, setLine, produce_vehicle, add_production_step,
      vehicleNew, choice, randint]

theorem maintenanceSweep_log (l : List Nat) (s : EngState) :
    (maintenanceSweep s l).maintenance_log = s.maintenance_log := by
  induction l generalizing s with
  | nil => rfl
  | cons i rest ih =>
    rw [maintenanceSweep]
    by_cases hd : (randomUnit s.rng).2 < 3/10
    · rw [if_pos hd]
      dsimp only [schedule]
    · rw [if_neg hd]
      exact ih _

theorem qualitySweep_log (l : List Nat) (s : EngState) :
    (qualitySweep s l).maintenance_log = s.maintenance_log := by
  induction l generalizing s with
  | nil => rfl
  | cons i rest ih =>
    rw [qualitySweep]
    by_cases hd : (getLine s i).vehicles.isEmpty = true
    · rw [if_pos hd]
      exact ih _
    · rw [if_neg hd]
      dsimp only [schedule]

theorem resume_log_append (a : Action) (s : EngState) :
    ∃ t, (resume a s).maintenance_log = s.maintenance_log ++ t := by
  cases a with
  | prod i pc =>
    refine ⟨[], ?_⟩
    rw [List.append_nil]
    show (prodResume i pc s).maintenance_log = s.maintenance_log
    cases pc
    case loopCheck =>
      rw [prodResume]
      by_cases h : s.raw_material_stock < 1
      · rw [if_pos h]
        dsimp only [schedule]
      · rw [if_neg h]
        dsimp only [schedule, setLine]
    all_goals
      rw [prodResume]
      dsimp only [schedule, setLine]
  | maint pc =>
    show ∃ t, (maintResume pc s).maintenance_log = s.maintenance_log ++ t
    cases pc with
    | childDone i d =>
      refine ⟨[⟨i + 1, s.now, d⟩], ?_⟩
      rw [maintResume]
      dsimp only [schedule]
    | cycle =>
      exact ⟨[], by
        rw [List.append_nil, maintResume]
        exact maintenanceSweep_log _ _⟩
    | afterChild i =>
      exact ⟨[], by
        rw [List.append_nil, maintResume]
        exact maintenanceSweep_log _ _⟩
    | start =>
      refine ⟨[], ?_⟩
      rw [List.append_nil, maintResume]
      dsimp only [schedule]
    | childStart i =>
      refine ⟨[], ?_⟩
      rw [List.append_nil, maintResume]
      dsimp only [schedule]
  | supply pc =>
    refine ⟨[], ?_⟩
    rw [List.append_nil]
    show (supplyResume pc s).maintenance_log = s.maintenance_log
    cases pc
    case check =>
      rw [supplyResume]
      by_cases h : s.raw_material_stock < s.raw_material_threshold
      · rw [if_pos h]
        dsimp only [schedule]
      · rw [if_neg h]
        dsimp only [schedule]
    all_goals
      rw [supplyResume]
      dsimp only [schedule]
  | qual pc =>
    refine ⟨[], ?_⟩
    rw [List.append_nil]
    show (qualResume pc s).maintenance_log = s.maintenance_log
    cases pc
    case cycle =>
      rw [qualResume]
      exact qualitySweep_log _ _
    case afterChild i =>
      rw [qualResume]
      exact qualitySweep_log _ _
    all_goals
      rw [qualResume]
      dsimp only [schedule, setLine]

theorem envRun_log_append (fuel : Nat) (horizon : ℚ) (s : EngState) :
    ∃ t, (envRun resumeOk fuel horizon s).2.maintenance_log
      = s.maintenance_log ++ t := by
  induction fuel generalizing s with
  | zero => exact ⟨[], (List.append_nil _).symm⟩
  | succ n ih =>
    unfold envRun
    match hq : popMin s.queue with
    | none => exact ⟨[], (List.append_nil _).symm⟩
    | some (e, rest) =>
      dsimp only
      split
      · obtain ⟨t1, ht1⟩ :=
          resume_log_append e.act { s with now := e.time, queue := rest }
        obtain ⟨t2, ht2⟩ :=
          ih (resume e.act { s with now := e.time, queue := rest })
        exact ⟨t1 ++ t2, by
          simp only [resumeOk] at ht2 ⊢
          rw [ht2, ht1, List.append_assoc]⟩
      · exact ⟨[], (List.append_nil _).symm⟩

theorem post_report_applyWall (w : Nat → ℚ) (s : EngState) :
    post_simulation_report (applyWallState w s) = post_simulation_report s := by
  unfold post_simulation_report applyWallState applyWallLine get_produced_count
  simp [List.map_map, Function.comp_def]

/-! ## Claim C5 (determinism of the report) -/

/-- Claim C5: for a fixed seed and fixed simulation duration, two runs of
`SimulationEngine(duration, seed).run_simulation()` produce identical
per-line vehicle counts, identical maintenance logs (same records, same
order) and identical final raw-material stock.  In the source, all
sampling is drawn from the single global generator re-seeded by
`__init__`, and simpy's scheduling is deterministic (FIFO tie-break on
event ids); the only quantity that differs between two real runs is the
stream of `time.time()` wall-clock readings, which the machine takes as
an explicit input `w`.  The compared outputs are identical for any two
wall-clock streams. -/
theorem C5_fixed_seed_runs_identical
    (fuel : Nat) (duration : ℚ) (seed : Nat) (w1 w2 : Nat → ℚ) :
    post_simulation_report (runWithWall fuel duration seed w1)
      = post_simulation_report (runWithWall fuel duration seed w2) := by
  unfold runWithWall
  rw [post_report_applyWall, post_report_applyWall]

/-! ## Claim C8 (horizon 0) -/

/-- Claim C8: running the simulation with horizon 0 produces zero vehicles
on every line, leaves the raw-material stock at its initial value 1000,
and leaves the maintenance log empty.  (`env.run(until=0)` raises
`ValueError` before processing any event — `until` must exceed the
current time — and `run_simulation` catches it and reports on the
untouched initial state.) -/
theorem C8_horizon_zero (fuel seed : Nat) (w : Nat → ℚ) :
    run_simulation fuel 0 seed
        = { vehicles_per_line := [0, 0], total_vehicles := 0,
            maintenance_log := [], final_raw_material_stock := 1000 } ∧
      (runWithWall fuel 0 seed w).lines.map (fun ln => ln.vehicles) = [[], []] ∧
      (runWithWall fuel 0 seed w).maintenance_log = [] ∧
      (runWithWall fuel 0 seed w).raw_material_stock = 1000 := by
  refine ⟨rfl, rfl, rfl, rfl⟩

/-! ## Claim C3 (quality-control verdict rule) -/

/-- Claim C3 counterexample: the claim states that every inspection
performed by the quality-control process draws three scores and records
"passed" iff `assembly ≥ 0.75 ∧ paint ≥ 0.80 ∧ performance ≥ 0.70`.  The
quality-control process that `run_simulation` registers
(`quality_control_process` → `inspect_vehicle`, `engine.py:164-198`)
instead draws a single score and records "passed" iff it exceeds 0.7
strictly: a score of 0.72 is recorded as "passed" although it meets
neither the 0.75 assembly threshold nor the 0.80 paint threshold, so the
claimed verdict rule is violated by that inspection. -/
theorem C3_counterexample :
    inspect_result (72/100) = "passed" ∧
      quality_check_result (72/100) (72/100) (72/100) = "failed" ∧
      ¬ ((72 : ℚ)/100 ≥ 3/4 ∧ (72 : ℚ)/100 ≥ 4/5 ∧ (72 : ℚ)/100 ≥ 7/10) := by
  refine ⟨?_, ?_, by norm_num⟩
  · unfold inspect_result
    rw [if_pos (by norm_num)]
  · unfold quality_check_result
    rw [if_neg (by norm_num)]

/-- Claim C3 amended: the three-factor rule with thresholds
(0.75, 0.80, 0.70) governs `QualityCheck.perform_quality_check`
(`models.py:282-304`), which `run_simulation` never invokes: there, the
verdict is "passed" iff all three independently drawn scores meet their
thresholds, and the full score vector (rounded to two decimals) plus the
verdict is appended to the vehicle's quality history.  The inspection
actually performed by the engine's registered quality-control process
draws a single uniform score and records "passed" iff it exceeds 0.7
strictly. -/
theorem C3_amended_quality_verdicts :
    (∀ a p f : ℚ,
      quality_check_result a p f = "passed"
        ↔ (3/4 ≤ a ∧ 4/5 ≤ p ∧ 7/10 ≤ f)) ∧
    (∀ (v : Vehicle) (a p f : ℚ) (w : Nat),
      (perform_quality_check v a p f w).1.quality_history
        = v.quality_history
            ++ [(.detailed (round2 a) (round2 p) (round2 f)
                  (round2 ((a + p + f) / 3))
                  (quality_check_result a p f), w)]) ∧
    (∀ q : ℚ, inspect_result q = "passed" ↔ 7/10 < q) := by
  refine ⟨fun a p f => ?_, fun v a p f w => ?_, fun q => ?_⟩
  · unfold quality_check_result
    split
    · next h => simpa [ge_iff_le] using h
    · next h => simp only [ge_iff_le] at h; simpa using h
  · simp [perform_quality_check, add_quality_check]
  · unfold inspect_result
    split
    · next h => simpa [gt_iff_lt] using h
    · next h => simp only [gt_iff_lt] at h; simpa using h

/-- Witness for the C3 amended theorem at concrete scores: (0.8, 0.85,
0.75) passes the three-factor check, and a single score of 0.71 passes
the engine's check. -/
theorem C3_amended_witness :
    quality_check_result (8/10) (85/100) (75/100) = "passed" ∧
      inspect_result (71/100) = "passed" := by
  refine ⟨(C3_amended_quality_verdicts.1 _ _ _).mpr (by norm_num),
    (C3_amended_quality_verdicts.2.2 _).mpr (by norm_num)⟩

/-! ## Claim C6 (atomic check-and-decrement) -/

/-- Claim C6: in every iteration of the production loop, the
stock-sufficiency check (`engine.py:78`) and the stock decrement
(`engine.py:88`) happen inside one atomic resumption — one application of
`resume`, the unit of the cooperative scheduler between two suspension
points — so no other process can observe or mutate the stock in between.
When the check passes, the very same resumption already contains the
decremented stock (by the sampled `material_used ∈ [5, 10]`), and the
only suspension it requests is the start of the vehicle's station
pipeline; when the check fails, the stock is untouched and the loop
re-polls 5 time units later. -/
theorem C6_check_and_decrement_atomic (s : EngState) (i : Nat) :
    (¬ s.raw_material_stock < 1 →
      ∃ m : Nat, 5 ≤ m ∧ m ≤ 10 ∧
        (resume (.prod i .loopCheck) s).raw_material_stock
            = s.raw_material_stock - (m : Int) ∧
        (resume (.prod i .loopCheck) s).queue
            = s.queue ++ [⟨s.now, 0, s.nextEid,
                .prod i (.procStart ((getLine s i).vehicle_count + 1))⟩]) ∧
    (s.raw_material_stock < 1 →
      (resume (.prod i .loopCheck) s).raw_material_stock
          = s.raw_material_stock ∧
      (resume (.prod i .loopCheck) s).queue
          = s.queue ++ [⟨s.now + 5, 1, s.nextEid, .prod i .loopCheck⟩]) := by
  constructor
  · intro h
    have hm := randint_mem 5 10 (by norm_num)
      (vehicleNew ((getLine s i).vehicle_count + 1) s.now s.rng).1
    refine ⟨_, hm.1, hm.2, ?_, ?_⟩
    · show (prodResume i .loopCheck s).raw_material_stock = _
      rw [prodResume, if_neg h]
      dsimp only [schedule, setLine, produce_vehicle, add_production_step,
        vehicleNew, vehicleInit, choice]
    · show (prodResume i .loopCheck s).queue = _
      rw [prodResume, if_neg h]
      dsimp only [schedule, setLine, produce_vehicle, add_production_step,
        vehicleNew, vehicleInit, choice]
      rw [add_zero]
  · intro h
    constructor
    · show (prodResume i .loopCheck s).raw_material_stock = _
      rw [prodResume, if_pos h]
      dsimp only [schedule]
    · show (prodResume i .loopCheck s).queue = _
      rw [prodResume, if_pos h]
      dsimp only [schedule]

/-- Witness for C6 at the freshly initialised engine (stock 1000, so the
check passes) and at a starved engine (stock 0, so the loop re-polls). -/
theorem C6_witness :
    (∃ m : Nat, 5 ≤ m ∧ m ≤ 10 ∧
      (resume (.prod 0 .loopCheck) (engineInitState 0)).raw_material_stock
          = (engineInitState 0).raw_material_stock - (m : Int) ∧
      (resume (.prod 0 .loopCheck) (engineInitState 0)).queue
          = (engineInitState 0).queue
              ++ [⟨(engineInitState 0).now, 0, (engineInitState 0).nextEid,
                  .prod 0 (.procStart
                    ((getLine (engineInitState 0) 0).vehicle_count + 1))⟩]) ∧
    ((resume (.prod 0 .loopCheck)
        { engineInitState 0 with raw_material_stock := 0 }).raw_material_stock
        = ({ engineInitState 0 with
              raw_material_stock := 0 } : EngState).raw_material_stock ∧
      (resume (.prod 0 .loopCheck)
        { engineInitState 0 with raw_material_stock := 0 }).queue
        = ({ engineInitState 0 with
              raw_material_stock := 0 } : EngState).queue
            ++ [⟨({ engineInitState 0 with
                      raw_material_stock := 0 } : EngState).now + 5, 1,
                ({ engineInitState 0 with
                      raw_material_stock := 0 } : EngState).nextEid,
                .prod 0 .loopCheck⟩]) :=
  ⟨(C6_check_and_decrement_atomic (engineInitState 0) 0).1 (by decide),
    (C6_check_and_decrement_atomic
      { engineInitState 0 with raw_material_stock := 0 } 0).2 (by decide)⟩

/-! ## Claim C9 (supply-chain cycle) -/

/-- Claim C9: the supply-chain process fires on a fixed 20-unit periodic
interval; each firing compares the stock to the configured threshold.
If and only if the stock is below the threshold, it starts a
replenishment: it suspends for a sampled lead time in [10, 20] (stock
unchanged meanwhile by this process) and then increments the stock by a
sampled amount in [300, 500]; otherwise the cycle leaves the stock
unchanged and merely schedules the next periodic check 20 units later. -/
theorem C9_supply_chain_cycle (s : EngState) :
    (s.raw_material_stock < s.raw_material_threshold →
      (resume (.supply .check) s).raw_material_stock
          = s.raw_material_stock ∧
      (resume (.supply .check) s).queue
          = s.queue ++ [⟨s.now, 0, s.nextEid, .supply .childStart⟩]) ∧
    (¬ s.raw_material_stock < s.raw_material_threshold →
      (resume (.supply .check) s).raw_material_stock
          = s.raw_material_stock ∧
      (resume (.supply .check) s).queue
          = s.queue ++ [⟨s.now + 20, 1, s.nextEid, .supply .check⟩]) ∧
    (∃ d, 10 ≤ d ∧ d ≤ 20 ∧
      (resume (.supply .childStart) s).raw_material_stock
          = s.raw_material_stock ∧
      (resume (.supply .childStart) s).queue
          = s.queue ++ [⟨s.now + d, 1, s.nextEid, .supply .childDone⟩]) ∧
    (∃ a : Nat, 300 ≤ a ∧ a ≤ 500 ∧
      (resume (.supply .childDone) s).raw_material_stock
          = s.raw_material_stock + a ∧
      (resume (.supply .childDone) s).queue
          = s.queue ++ [⟨s.now, 1, s.nextEid, .supply .afterChild⟩]) ∧
    ((resume (.supply .afterChild) s).raw_material_stock
        = s.raw_material_stock ∧
      (resume (.supply .afterChild) s).queue
        = s.queue ++ [⟨s.now + 20, 1, s.nextEid, .supply .check⟩]) := by
  refine ⟨fun h => ⟨?_, ?_⟩, fun h => ⟨?_, ?_⟩,
    ⟨(uniform 10 20 s.rng).2, (uniform_mem 10 20 (by norm_num) _).1,
      (uniform_mem 10 20 (by norm_num) _).2, ?_, ?_⟩,
    ⟨(randint 300 500 s.rng).2, (randint_mem 300 500 (by norm_num) _).1,
      (randint_mem 300 500 (by norm_num) _).2, ?_, ?_⟩, ?_, ?_⟩
  · show (supplyResume .check s).raw_material_stock = _
    rw [supplyResume, if_pos h]
    dsimp only [schedule]
  · show (supplyResume .check s).queue = _
    rw [supplyResume, if_pos h]
    dsimp only [schedule]
    rw [add_zero]
  · show (supplyResume .check s).raw_material_stock = _
    rw [supplyResume, if_neg h]
    dsimp only [schedule]
  · show (supplyResume .check s).queue = _
    rw [supplyResume, if_neg h]
    dsimp only [schedule]
  · show (supplyResume .childStart s).raw_material_stock = _
    rw [supplyResume]
    dsimp only [schedule]
  · show (supplyResume .childStart s).queue = _
    rw [supplyResume]
    dsimp only [schedule]
  · show (supplyResume .childDone s).raw_material_stock = _
    rw [supplyResume]
    dsimp only [schedule]
  · show (supplyResume .childDone s).queue = _
    rw [supplyResume]
    dsimp only [schedule]
    rw [add_zero]
  · show (supplyResume .afterChild s).raw_material_stock = _
    rw [supplyResume]
    dsimp only [schedule]
  · show (supplyResume .afterChild s).queue = _
    rw [supplyResume]
    dsimp only [schedule]

/-- Witness for C9, exercising both branches of the threshold test: a
stock of 150 (below the threshold 200) triggers a replenishment child; a
stock of 1000 does not. -/
theorem C9_witness :
    ((resume (.supply .check)
        { engineInitState 0 with raw_material_stock := 150 }).raw_material_stock
        = ({ engineInitState 0 with
              raw_material_stock := 150 } : EngState).raw_material_stock ∧
      (resume (.supply .check)
        { engineInitState 0 with raw_material_stock := 150 }).queue
        = ({ engineInitState 0 with
              raw_material_stock := 150 } : EngState).queue
            ++ [⟨({ engineInitState 0 with
                    raw_material_stock := 150 } : EngState).now, 0,
                ({ engineInitState 0 with
                    raw_material_stock := 150 } : EngState).nextEid,
                .supply .childStart⟩]) ∧
    ((resume (.supply .check) (engineInitState 0)).raw_material_stock
        = (engineInitState 0).raw_material_stock ∧
      (resume (.supply .check) (engineInitState 0)).queue
        = (engineInitState 0).queue
            ++ [⟨(engineInitState 0).now + 20, 1,
                (engineInitState 0).nextEid, .supply .check⟩]) :=
  ⟨(C9_supply_chain_cycle
      { engineInitState 0 with raw_material_stock := 150 }).1 (by decide),
    (C9_supply_chain_cycle (engineInitState 0)).2.1 (by decide)⟩

/-! ## Claim C10 (maintenance records) -/

/-- Claim C10: a maintenance record is appended with its `time` field
equal to `env.now` at the moment the maintenance completes — the
`perform_maintenance` child samples a duration `d ∈ [5, 15]`, schedules
its own resumption exactly `d` after the start, and only then appends
the record — and its `duration` field equal to that sampled duration.
Moreover the maintenance log is append-only: every atomic step of every
process, and hence every run of the event loop, only ever appends to it,
never mutates or removes existing records. -/
theorem C10_maintenance_records :
    (∀ (s : EngState) (i : Nat) (d : ℚ),
      (resume (.maint (.childDone i d)) s).maintenance_log
          = s.maintenance_log ++ [⟨i + 1, s.now, d⟩] ∧
      (resume (.maint (.childDone i d)) s).queue
          = s.queue ++ [⟨s.now, 1, s.nextEid, .maint (.afterChild i)⟩]) ∧
    (∀ (s : EngState) (i : Nat),
      ∃ d, 5 ≤ d ∧ d ≤ 15 ∧
        (resume (.maint (.childStart i)) s).queue
          = s.queue ++ [⟨s.now + d, 1, s.nextEid, .maint (.childDone i d)⟩]) ∧
    (∀ (s : EngState) (a : Action),
      ∃ t, (resume a s).maintenance_log = s.maintenance_log ++ t) ∧
    (∀ (fuel : Nat) (horizon : ℚ) (s : EngState),
      ∃ t, (envRun resumeOk fuel horizon s).2.maintenance_log
        = s.maintenance_log ++ t) := by
  refine ⟨fun s i d => ⟨?_, ?_⟩,
    fun s i => ⟨(uniform 5 15 s.rng).2, (uniform_mem 5 15 (by norm_num) _).1,
      (uniform_mem 5 15 (by norm_num) _).2, ?_⟩,
    fun s a => resume_log_append a s, envRun_log_append⟩
  · show (maintResume (.childDone i d) s).maintenance_log = _
    rw [maintResume]
    dsimp only [schedule]
  · show (maintResume (.childDone i d) s).queue = _
    rw [maintResume]
    dsimp only [schedule]
    rw [add_zero]
  · show (maintResume (.childStart i) s).queue = _
    rw [maintResume]
    dsimp only [schedule]

/-! ## Claim C7 (status sequence of a vehicle) -/

theorem statusHistory_add_production_step (v : Vehicle) (n d : String)
    (w : Nat) :
    statusHistory (add_production_step v n d w).1 = statusHistory v := by
  simp [statusHistory, add_production_step]

theorem statusHistory_update_status (v : Vehicle) (ns : String) (w : Nat) :
    statusHistory (update_status v ns w).1 = statusHistory v ++ [ns] := by
  simp [statusHistory, update_status]

theorem statusHistory_add_component (v : Vehicle) (n : String)
    (d : List (String × AttrV)) (w : Nat) :
    statusHistory (add_component v n d w).1 = statusHistory v := by
  rw [add_component, statusHistory_add_production_step]
  simp [statusHistory]

theorem statusHistory_mark_for_maintenance (v : Vehicle) (w : Nat) :
    statusHistory (mark_for_maintenance v w).1 = statusHistory v := by
  rw [mark_for_maintenance, statusHistory_add_production_step]
  simp [statusHistory]

theorem statusHistory_welding_enter (v : Vehicle) (w : Nat) :
    statusHistory (welding_enter v w).1 = statusHistory v ++ ["welding"] := by
  simp [welding_enter, statusHistory_add_production_step,
    statusHistory_update_status]

theorem statusHistory_welding_exit (v : Vehicle) (w : Nat) :
    statusHistory (welding_exit v w).1 = statusHistory v := by
  simp [welding_exit, statusHistory_add_production_step]

theorem statusHistory_assembly_enter (v : Vehicle) (w : Nat) :
    statusHistory (assembly_enter v w).1 = statusHistory v ++ ["assembly"] := by
  simp [assembly_enter, statusHistory_add_production_step,
    statusHistory_update_status]

theorem statusHistory_assembly_exit (v : Vehicle) (g : String) (hp w : Nat) :
    statusHistory (assembly_exit v g hp w).1 = statusHistory v := by
  simp [assembly_exit, statusHistory_add_production_step,
    statusHistory_add_component]

theorem statusHistory_painting_enter (v : Vehicle) (w : Nat) :
    statusHistory (painting_enter v w).1 = statusHistory v ++ ["painting"] := by
  simp [painting_enter, statusHistory_add_production_step,
    statusHistory_update_status]

theorem statusHistory_painting_exit (v : Vehicle) (c : String) (w : Nat) :
    statusHistory (painting_exit v c w).1 = statusHistory v := by
  simp [painting_exit, add_production_step, statusHistory]

theorem statusHistory_inspection_enter (v : Vehicle) (w : Nat) :
    statusHistory (inspection_enter v w).1
      = statusHistory v ++ ["inspection"] := by
  simp [inspection_enter, statusHistory_add_production_step,
    statusHistory_update_status]

theorem statusHistory_inspection_exit (v : Vehicle) (w : Nat) :
    statusHistory (inspection_exit v w).1 = statusHistory v := by
  simp [inspection_exit, statusHistory_add_production_step]

theorem statusHistory_testing_enter (v : Vehicle) (w : Nat) :
    statusHistory (testing_enter v w).1 = statusHistory v ++ ["testing"] := by
  simp [testing_enter, statusHistory_add_production_step,
    statusHistory_update_status]

theorem statusHistory_testing_exit (v : Vehicle) (p : ℚ) (w : Nat) :
    statusHistory (testing_exit v p w).1 = statusHistory v := by
  rw [testing_exit]
  by_cases hp : p < 1/2
  · rw [if_pos hp]
    dsimp only
    rw [statusHistory_mark_for_maintenance, statusHistory_add_production_step]
  · rw [if_neg hp]
    rw [statusHistory_add_production_step]

theorem statusHistory_packaging_enter (v : Vehicle) (w : Nat) :
    statusHistory (packaging_enter v w).1
      = statusHistory v ++ ["packaging"] := by
  simp [packaging_enter, statusHistory_add_production_step,
    statusHistory_update_status]

theorem statusHistory_packaging_exit (v : Vehicle) (w : Nat) :
    statusHistory (packaging_exit v w).1 = statusHistory v := by
  simp [packaging_exit, statusHistory_add_production_step]

theorem statusHistory_vehicleInit (vehicle_id : Nat) (ct : ℚ)
    (color engine : String) (auto : Bool) :
    statusHistory (vehicleInit vehicle_id ct color engine auto) = [] := by
  simp [vehicleInit, statusHistory]

theorem statusValues_cut (grade new_color : String) (performance : ℚ)
    (horsepower vehicle_id : Nat) (creation_time : ℚ)
    (color engine : String) (auto : Bool) (w : Nat) (n : Nat) (hn : n ≤ 7) :
    statusValues (cutVehicle grade horsepower new_color performance
        vehicle_id creation_time color engine auto w n)
      = statusSeq.take (n + 1) := by
  interval_cases n <;>
    simp [cutVehicle, process_vehicle_cut, processVehicleBlock,
      statusValues, statusSeq, statusHistory_welding_enter,
      statusHistory_welding_exit, statusHistory_assembly_enter,
      statusHistory_assembly_exit, statusHistory_painting_enter,
      statusHistory_painting_exit, statusHistory_inspection_enter,
      statusHistory_inspection_exit, statusHistory_testing_enter,
      statusHistory_testing_exit, statusHistory_packaging_enter,
      statusHistory_packaging_exit, statusHistory_update_status,
      statusHistory_vehicleInit]

/-- Claim C7: for every vehicle processed through the station pipeline
(cut off after any number `n ≤ 7` of its blocks, e.g. by the horizon),
the sequence of status values it takes is exactly the first `n + 1`
entries of [created, welding, assembly, painting, inspection, testing,
packaging, completed]: a prefix of the full station order, strictly
increasing in station index (no station skipped, repeated, or visited
out of order), and the vehicle carries the status "completed" exactly
when all six stations and the final completion step have run. -/
theorem C7_status_sequence (n : Nat) (hn : n ≤ 7) (grade new_color : String)
    (performance : ℚ) (horsepower vehicle_id : Nat) (creation_time : ℚ)
    (color engine : String) (auto : Bool) (w : Nat) :
    statusValues (cutVehicle grade horsepower new_color performance
        vehicle_id creation_time color engine auto w n)
      = statusSeq.take (n + 1) ∧
    (∃ t, statusValues (cutVehicle grade horsepower new_color performance
        vehicle_id creation_time color engine auto w n) ++ t = statusSeq) ∧
    (statusValues (cutVehicle grade horsepower new_color performance
        vehicle_id creation_time color engine auto w n)).Pairwise
      (fun a b => statusSeq.indexOf a < statusSeq.indexOf b) ∧
    ("completed" ∈ statusValues (cutVehicle grade horsepower new_color
        performance vehicle_id creation_time color engine auto w n)
      ↔ n = 7) := by
  have h := statusValues_cut grade new_color performance horsepower
    vehicle_id creation_time color engine auto w n hn
  refine ⟨h, ⟨statusSeq.drop (n + 1), by rw [h, List.take_append_drop]⟩,
    ?_, ?_⟩
  · rw [h]
    interval_cases n <;> decide
  · rw [h]
    interval_cases n <;> decide

/-- Witness for C7 with the full pipeline (`n = 7`) on a concrete fresh
vehicle. -/
theorem C7_witness :
    statusValues (cutVehicle "A" 200 "Silver" (3/4) 1 0 "Red" "Electric"
        true 0 7)
      = statusSeq.take 8 ∧
    ("completed" ∈ statusValues (cutVehicle "A" 200 "Silver" (3/4) 1 0
        "Red" "Electric" true 0 7)) :=
  ⟨(C7_status_sequence 7 (by norm_num) "A" "Silver" (3/4) 200 1 0 "Red"
      "Electric" true 0).1,
    (C7_status_sequence 7 (by norm_num) "A" "Silver" (3/4) 200 1 0 "Red"
      "Electric" true 0).2.2.2.mpr rfl⟩

/-! ## Claim C4 (production loop structure) -/

/-- Claim C4 amended, structural part: when stock suffices, the loop body
creates the vehicle, decrements the stock, and schedules exactly one
continuation — the start of the vehicle's six-station pipeline — and in
particular no next `loopCheck`; the pipeline's last block schedules the
process-termination event (`afterProc`) at the completion time; and only
that termination resumption schedules the next production attempt, an
inter-arrival delay sampled from [0.5, 2] after the completion.  So the
line waits for the previous vehicle's six-station sequence to complete
and only then waits the inter-arrival delay — `yield
self.env.process(production_line.process_vehicle(vehicle))` at
`engine.py:92` blocks the loop until the pipeline finishes. -/
theorem C4_amended_line_waits_for_pipeline (s : EngState) (i vid : Nat) :
    (¬ s.raw_material_stock < 1 →
      (resume (.prod i .loopCheck) s).queue
        = s.queue ++ [⟨s.now, 0, s.nextEid,
            .prod i (.procStart ((getLine s i).vehicle_count + 1))⟩]) ∧
    ((resume (.prod i (.packDone vid)) s).queue
        = s.queue ++ [⟨s.now, 1, s.nextEid, .prod i .afterProc⟩]) ∧
    (∃ delay, 1/2 ≤ delay ∧ delay ≤ 2 ∧
      (resume (.prod i .afterProc) s).queue
        = s.queue ++ [⟨s.now + delay, 1, s.nextEid, .prod i .loopCheck⟩]) := by
  refine ⟨fun h => ?_, ?_,
    ⟨(uniform (1/2) 2 s.rng).2, (uniform_mem (1/2) 2 (by norm_num) _).1,
      (uniform_mem (1/2) 2 (by norm_num) _).2, ?_⟩⟩
  · show (prodResume i .loopCheck s).queue = _
    rw [prodResume, if_neg h]
    dsimp only [schedule, setLine, produce_vehicle, add_production_step,
      vehicleNew, vehicleInit, choice]
    rw [add_zero]
  · show (prodResume i (.packDone vid) s).queue = _
    rw [prodResume]
    dsimp only [schedule, setLine]
    rw [add_zero]
  · show (prodResume i .afterProc s).queue = _
    rw [prodResume]
    dsimp only [schedule]

/-- Witness for the C4 amended theorem at the freshly initialised engine
(stock 1000, so the production branch is taken). -/
theorem C4_amended_witness :
    (resume (.prod 0 .loopCheck) (engineInitState 7)).queue
      = (engineInitState 7).queue
          ++ [⟨(engineInitState 7).now, 0, (engineInitState 7).nextEid,
              .prod 0 (.procStart
                ((getLine (engineInitState 7) 0).vehicle_count + 1))⟩] :=
  (C4_amended_line_waits_for_pipeline (engineInitState 7) 0 1).1 (by decide)

/-! ## Concrete-run counterexamples

The following closed facts evaluate the machine on concrete runs.  The
`Rat` arithmetic operations of Batteries are `@[irreducible]` for
elaboration; they are made semireducible locally so that `decide` can
evaluate the run. -/

section ConcreteRuns

attribute [local semireducible] Rat.add Rat.sub Rat.mul Rat.inv
  Rat.ofScientific

/-- Claim C4 counterexample: in the concrete run with seed 42 (horizon 16,
fuel 45), production line 0 creates its first vehicle at time 0 and its
second only at time 67140965857/4294967296 ≈ 15.63.  The inter-arrival
delay is sampled from [0.5, 2] ≤ 2 (see
`C4_amended_line_waits_for_pipeline`), so under the claim — which says
the line waits only that delay and does not wait for the previous
vehicle's six-station sequence — the second vehicle would have been
created no later than time 2 (stock stays ≥ 1 throughout).  The gap
observed in the run exceeds 2 because the loop waits for the pipeline to
complete. -/
theorem C4_counterexample :
    ((runSimulationState resumeOk 45 16 42).lines.getD 0 lineInit).vehicles.map
        (fun v => v.creation_time) = [0, 67140965857/4294967296] ∧
      (2 : ℚ) < 67140965857/4294967296 - 0 := by
  constructor
  · decide
  · norm_num

/-- Claim C2 counterexample: with a fault injected into the maintenance
process at its first periodic check (t = 50, `resumeFaulty`), the run to
horizon 58 stops at the fault: the error is caught ("boom" is reported
out of `env.run` and absorbed), but the production lines — unfaulty
processes — are not scheduled any further, so the faulted run produces
[4, 4] vehicles where the fault-free run produces [4, 5].  This refutes
"the offending process is excluded from further scheduling while all
other processes continue to be scheduled and run"; moreover the report
type has no error list — it carries only counts, the maintenance log and
the final stock. -/
theorem C2_counterexample :
    (envRun resumeFaulty 130 58 (startProcesses (engineInitState 42))).1
        = some "boom" ∧
      (run_simulationE resumeFaulty 130 58 42).vehicles_per_line = [4, 4] ∧
      (run_simulation 130 58 42).vehicles_per_line = [4, 5] ∧
      run_simulationE resumeFaulty 130 58 42 ≠ run_simulation 130 58 42 := by
  refine ⟨by decide, ?_, ?_, ?_⟩
  · decide
  · decide
  · decide

end ConcreteRuns

/-! ## Claim C2 (fault handling) -/

/-- Claim C2 amended: when any process resumption raises during the event
loop, the loop returns immediately with the fault — the state at the
fault keeps every other pending event unprocessed, so no process (the
offender or any other) is resumed after the fault — and `run_simulation`
absorbs the fault (it catches and logs the exception, never re-raising)
and still produces the final report from the engine state as of the
fault.  The report (`post_simulation_report`) carries only the produced
counts, the maintenance log and the final stock: there is no error
list. -/
theorem C2_amended_fault_stops_run :
    (∀ (rf : ResumeFun) (fuel : Nat) (horizon : ℚ) (s : EngState)
        (e : Ev) (rest : List Ev) (f : String),
      popMin s.queue = some (e, rest) → e.time < horizon →
      rf e.act { s with now := e.time, queue := rest } = .error f →
      envRun rf (fuel + 1) horizon s
        = (some f, { s with now := e.time, queue := rest })) ∧
    (∀ (rf : ResumeFun) (fuel : Nat) (duration : ℚ) (seed : Nat),
      run_simulationE rf fuel duration seed
        = post_simulation_report (runSimulationState rf fuel duration seed)) := by
  refine ⟨fun rf fuel horizon s e rest f h1 h2 h3 => ?_,
    fun rf fuel d seed => rfl⟩
  rw [envRun, h1]
  dsimp only
  rw [if_pos h2, h3]

section ConcreteRuns2

attribute [local semireducible] Rat.add Rat.sub Rat.mul Rat.inv
  Rat.ofScientific

/-- Witness for the C2 amended theorem on a concrete one-event queue: the
faulting maintenance resumption at time 1 ends the loop at once with the
fault recorded and the queue emptied of nothing else (no later event is
processed). -/
theorem C2_amended_witness :
    envRun resumeFaulty 4 2
        { engineInitState 0 with queue := [⟨1, 1, 0, .maint .cycle⟩] }
      = (some "boom", { engineInitState 0 with now := 1, queue := [] }) :=
  C2_amended_fault_stops_run.1 resumeFaulty 3 2
    { engineInitState 0 with queue := [⟨1, 1, 0, .maint .cycle⟩] }
    ⟨1, 1, 0, .maint .cycle⟩ [] "boom" (by decide) (by decide) rfl

end ConcreteRuns2

/-! ## Invariant infrastructure for claim C1 -/

theorem evLe_time (a b : Ev) (h : evLe a b = true) : a.time ≤ b.time := by
  simp only [evLe, decide_eq_true_eq] at h
  rcases h with h | ⟨h, _⟩
  · exact h.le
  · exact h.le

theorem evLe_total_time (a b : Ev) (h : ¬ evLe a b = true) :
    b.time ≤ a.time := by
  simp only [evLe, decide_eq_true_eq, not_or, not_and, not_lt] at h
  exact h.1

theorem popMin_none (l : List Ev) (h : popMin l = none) : l = [] := by
  cases l with
  | nil => rfl
  | cons e rest =>
    rw [popMin] at h
    rcases hr : popMin rest with _ | ⟨m, others⟩ <;> rw [hr] at h
    · exact absurd h (by simp)
    · dsimp only at h
      split at h <;> exact absurd h (by simp)

theorem popMin_spec (l : List Ev) (e : Ev) (r : List Ev)
    (h : popMin l = some (e, r)) :
    l.Perm (e :: r) ∧ ∀ x ∈ r, e.time ≤ x.time := by
  induction l generalizing e r with
  | nil => exact absurd h (by rw [popMin]; simp)
  | cons a rest ih =>
    rw [popMin] at h
    rcases hr : popMin rest with _ | ⟨m, others⟩ <;> rw [hr] at h
    · have hrest : rest = [] := popMin_none rest hr
      simp only [Option.some.injEq, Prod.mk.injEq] at h
      obtain ⟨he, hr2⟩ := h
      subst he
      subst hr2
      subst hrest
      exact ⟨List.Perm.refl _, by intro x hx; exact absurd hx (by simp)⟩
    · obtain ⟨hperm, hmin⟩ := ih m others hr
      dsimp only at h
      by_cases hle : evLe a m = true
      · rw [if_pos hle] at h
        simp only [Option.some.injEq, Prod.mk.injEq] at h
        obtain ⟨he, hr2⟩ := h
        subst he
        subst hr2
        refine ⟨List.Perm.refl _, fun x hx => ?_⟩
        rcases List.mem_cons.1 (hperm.mem_iff.1 hx) with heq | hmem
        · exact heq ▸ evLe_time _ _ hle
        · exact le_trans (evLe_time _ _ hle) (hmin x hmem)
      · rw [if_neg hle] at h
        simp only [Option.some.injEq, Prod.mk.injEq] at h
        obtain ⟨he, hr2⟩ := h
        subst he
        subst hr2
        constructor
        · exact ((hperm.cons a).trans (List.Perm.swap _ _ _))
        · intro x hx
          rcases List.mem_cons.1 hx with rfl | hmem
          · exact evLe_total_time _ _ hle
          · exact hmin x hmem

theorem lineCap_nonneg (F X : ℚ) : 0 ≤ lineCap F X := by
  unfold lineCap
  positivity

theorem lineCap_mono (F : ℚ) (X X' : ℚ) (h : X ≤ X') :
    lineCap F X ≤ lineCap F X' := by
  unfold lineCap
  have h1 : (X - F) / 8 + 1 ≤ (X' - F) / 8 + 1 := by linarith
  have h2 := max_le_max (le_refl (0:ℚ)) h1
  linarith

theorem lineCap_anti (F F' X : ℚ) (h : F ≤ F') :
    lineCap F' X ≤ lineCap F X := by
  unfold lineCap
  have h1 : (X - F') / 8 + 1 ≤ (X - F) / 8 + 1 := by linarith
  have h2 := max_le_max (le_refl (0:ℚ)) h1
  linarith

theorem lineCap_consume (t X : ℚ) (h : t ≤ X) :
    lineCap t X = lineCap (t + 8) X + 10 := by
  unfold lineCap
  rw [max_eq_right (by linarith : (0:ℚ) ≤ (X - t) / 8 + 1),
    max_eq_right (by linarith : (0:ℚ) ≤ (X - (t + 8)) / 8 + 1)]
  ring

theorem lineCap_add_le (F X c : ℚ) (hc : 0 ≤ c) :
    lineCap F (X + c) ≤ lineCap F X + 10 * (c / 8) := by
  unfold lineCap
  have h1 : (X + c - F) / 8 + 1 = ((X - F) / 8 + 1) + c / 8 := by ring
  rw [h1]
  have h2 : max 0 (((X - F) / 8 + 1) + c / 8)
      ≤ max 0 ((X - F) / 8 + 1) + c / 8 := by
    apply max_le
    · positivity
    · have := le_max_right (0:ℚ) ((X - F) / 8 + 1)
      linarith
  linarith

theorem lineCap_upper (F T : ℚ) (h : T ≤ F) : lineCap F (T + 40) ≤ 60 := by
  unfold lineCap
  have h1 : (T + 40 - F) / 8 + 1 ≤ 6 := by linarith
  have h2 : max 0 ((T + 40 - F) / 8 + 1) ≤ 6 :=
    max_le (by norm_num) h1
  linarith

theorem lineSlack_nonneg (pc : ProdPC) : 0 ≤ lineSlack pc := by
  cases pc <;> simp [lineSlack]

theorem supplyDeadline_ge (pc : SupplyPC) (T : ℚ) :
    T ≤ supplyDeadline pc T := by
  cases pc <;> simp [supplyDeadline] <;> linarith

theorem evLineF_ge_time (e : Ev) : e.time ≤ evLineF e := by
  unfold evLineF
  cases h : e.act <;> dsimp only
  case prod i pc =>
    have := lineSlack_nonneg pc
    linarith
  all_goals linarith

theorem evSupplyDeadline_ge_time (x : Ev) (h : evOwner x = .supplyProc) :
    x.time ≤ evSupplyDeadline x := by
  unfold evOwner at h
  unfold evSupplyDeadline
  cases hx : x.act <;> rw [hx] at h <;> simp [actionOwner] at h <;>
    dsimp only
  exact supplyDeadline_ge _ x.time

theorem lineCap_zero_forty : lineCap 0 40 = 60 := by
  unfold lineCap
  rw [max_eq_right (by norm_num : (0:ℚ) ≤ (40 - 0) / 8 + 1)]
  norm_num

theorem bound_of_deadline_le (F0 F1 Xold Xnew stockq : ℚ)
    (hX : Xnew ≤ Xold)
    (hold : 1 + lineCap F0 Xold + lineCap F1 Xold ≤ stockq) :
    1 + lineCap F0 Xnew + lineCap F1 Xnew ≤ stockq := by
  have h0 := lineCap_mono F0 Xnew Xold hX
  have h1 := lineCap_mono F1 Xnew Xold hX
  linarith

theorem owner_exists (q : List Ev)
    (hq : (q.map evOwner).Perm
      [.line 0, .line 1, .maintenanceProc, .supplyProc, .qualityProc])
    (o : Owner)
    (ho : o ∈ ([.line 0, .line 1, .maintenanceProc, .supplyProc,
      .qualityProc] : List Owner)) :
    ∃ x ∈ q, evOwner x = o := by
  have hm : o ∈ q.map evOwner := hq.mem_iff.mpr ho
  obtain ⟨x, hx, hxo⟩ := List.mem_map.mp hm
  exact ⟨x, hx, hxo⟩

theorem owner_not_in_rest (q : List Ev) (e : Ev) (rest : List Ev)
    (hperm : q.Perm (e :: rest))
    (hq : (q.map evOwner).Perm
      [.line 0, .line 1, .maintenanceProc, .supplyProc, .qualityProc]) :
    ∀ x ∈ rest, evOwner x ≠ evOwner e := by
  intro x hx hcon
  have hmp : (q.map evOwner).Perm (evOwner e :: rest.map evOwner) :=
    hperm.map evOwner
  have hcount1 : (q.map evOwner).count (evOwner e) ≤ 1 := by
    rw [hq.count_eq]
    exact List.nodup_iff_count_le_one.mp (by decide) _
  have hpos : 0 < (rest.map evOwner).count (evOwner e) :=
    List.count_pos_iff_mem.mpr (List.mem_map.mpr ⟨x, hx, hcon⟩)
  have hce := hmp.count_eq (evOwner e)
  rw [List.count_cons_self] at hce
  omega

theorem EngInv_stock_pos (s : EngState) (inv : EngInv s) :
    1 ≤ s.raw_material_stock := by
  obtain ⟨e0, h0, ho0⟩ := owner_exists s.queue inv.owners (.line 0) (by decide)
  obtain ⟨e1, h1, ho1⟩ := owner_exists s.queue inv.owners (.line 1) (by decide)
  obtain ⟨es, hs2, hos⟩ :=
    owner_exists s.queue inv.owners .supplyProc (by decide)
  have hb := inv.bound e0 h0 e1 h1 es hs2 ho0 ho1 hos
  have c0 := lineCap_nonneg (evLineF e0) (evSupplyDeadline es)
  have c1 := lineCap_nonneg (evLineF e1) (evSupplyDeadline es)
  have h1q : (1:ℚ) ≤ (s.raw_material_stock : ℚ) := by linarith
  exact_mod_cast h1q

theorem maintenanceSweep_spec (l : List Nat) (s : EngState) :
    ∃ ev, (maintenanceSweep s l).queue = s.queue ++ [ev] ∧
      evOwner ev = .maintenanceProc ∧ s.now ≤ ev.time ∧
      (maintenanceSweep s l).now = s.now ∧
      (maintenanceSweep s l).raw_material_stock = s.raw_material_stock ∧
      (maintenanceSweep s l).raw_material_threshold
        = s.raw_material_threshold := by
  induction l generalizing s with
  | nil =>
    refine ⟨⟨s.now + 50, 1, s.nextEid, .maint .cycle⟩, ?_, rfl,
      by dsimp only; linarith, ?_, ?_, ?_⟩ <;>
      (rw [maintenanceSweep]; dsimp only [schedule])
  | cons i rest ih =>
    rw [maintenanceSweep]
    by_cases hd : (randomUnit s.rng).2 < 3/10
    · rw [if_pos hd]
      refine ⟨⟨s.now + 0, 0, s.nextEid, .maint (.childStart i)⟩, ?_, rfl,
        by dsimp only; linarith, ?_, ?_, ?_⟩ <;> dsimp only [schedule]
    · rw [if_neg hd]
      exact ih _

theorem maintResume_spec (pc : MaintPC) (s : EngState) :
    ∃ ev, (maintResume pc s).queue = s.queue ++ [ev] ∧
      evOwner ev = .maintenanceProc ∧ s.now ≤ ev.time ∧
      (maintResume pc s).now = s.now ∧
      (maintResume pc s).raw_material_stock = s.raw_material_stock ∧
      (maintResume pc s).raw_material_threshold
        = s.raw_material_threshold := by
  cases pc with
  | start =>
    refine ⟨⟨s.now + 50, 1, s.nextEid, .maint .cycle⟩, ?_, rfl,
      by dsimp only; linarith, ?_, ?_, ?_⟩ <;>
      (rw [maintResume]; dsimp only [schedule])
  | cycle =>
    rw [maintResume]
    exact maintenanceSweep_spec _ s
  | childStart i =>
    have hu := uniform_mem 5 15 (by norm_num) s.rng
    refine ⟨⟨s.now + (uniform 5 15 s.rng).2, 1, s.nextEid,
      .maint (.childDone i (uniform 5 15 s.rng).2)⟩, ?_, rfl,
      by dsimp only; linarith [hu.1], ?_, ?_, ?_⟩ <;>
      (rw [maintResume]; dsimp only [schedule])
  | childDone i dur =>
    refine ⟨⟨s.now + 0, 1, s.nextEid, .maint (.afterChild i)⟩, ?_, rfl,
      by dsimp only; linarith, ?_, ?_, ?_⟩ <;>
      (rw [maintResume]; dsimp only [schedule])
  | afterChild i =>
    rw [maintResume]
    exact maintenanceSweep_spec _ s

theorem qualitySweep_spec (l : List Nat) (s : EngState) :
    ∃ ev, (qualitySweep s l).queue = s.queue ++ [ev] ∧
      evOwner ev = .qualityProc ∧ s.now ≤ ev.time ∧
      (qualitySweep s l).now = s.now ∧
      (qualitySweep s l).raw_material_stock = s.raw_material_stock ∧
      (qualitySweep s l).raw_material_threshold
        = s.raw_material_threshold := by
  induction l generalizing s with
  | nil =>
    refine ⟨⟨s.now + 5, 1, s.nextEid, .qual .postDelay⟩, ?_, rfl,
      by dsimp only; linarith, ?_, ?_, ?_⟩ <;>
      (rw [qualitySweep]; dsimp only [schedule])
  | cons i rest ih =>
    rw [qualitySweep]
    by_cases hv : (getLine s i).vehicles.isEmpty = true
    · rw [if_pos hv]
      exact ih _
    · rw [if_neg hv]
      refine ⟨⟨s.now + 0, 0, s.nextEid, .qual (.childStart i
        (choice (getLine s i).vehicles vehicleDefault s.rng).2.id)⟩,
        ?_, rfl, by dsimp only; linarith, ?_, ?_, ?_⟩ <;>
        dsimp only [schedule]
  
theorem qualResume_spec (pc : QualPC) (s : EngState) :
    ∃ ev, (qualResume pc s).queue = s.queue ++ [ev] ∧
      evOwner ev = .qualityProc ∧ s.now ≤ ev.time ∧
      (qualResume pc s).now = s.now ∧
      (qualResume pc s).raw_material_stock = s.raw_material_stock ∧
      (qualResume pc s).raw_material_threshold
        = s.raw_material_threshold := by
  cases pc with
  | start =>
    refine ⟨⟨s.now + 30, 1, s.nextEid, .qual .cycle⟩, ?_, rfl,
      by dsimp only; linarith, ?_, ?_, ?_⟩ <;>
      (rw [qualResume]; dsimp only [schedule])
  | cycle =>
    rw [qualResume]
    exact qualitySweep_spec _ s
  | childStart i vid =>
    have hu := uniform_mem 1 3 (by norm_num) s.rng
    refine ⟨⟨s.now + (uniform 1 3 s.rng).2, 1, s.nextEid,
      .qual (.childDone i vid)⟩, ?_, rfl,
      by dsimp only; linarith [hu.1], ?_, ?_, ?_⟩ <;>
      (rw [qualResume]; dsimp only [schedule])
  | childDone i vid =>
    refine ⟨⟨s.now + 0, 1, s.nextEid, .qual (.afterChild i)⟩, ?_, rfl,
      by dsimp only; linarith, ?_, ?_, ?_⟩ <;>
      (rw [qualResume]; dsimp only [schedule, setLine])
  | afterChild i =>
    rw [qualResume]
    exact qualitySweep_spec _ s
  | postDelay =>
    refine ⟨⟨s.now + 30, 1, s.nextEid, .qual .cycle⟩, ?_, rfl,
      by dsimp only; linarith, ?_, ?_, ?_⟩ <;>
      (rw [qualResume]; dsimp only [schedule])

theorem prodResume_consume_spec (i : Nat) (s : EngState)
    (h : ¬ s.raw_material_stock < 1) :
    ∃ m vid, 5 ≤ m ∧ m ≤ 10 ∧
      (prodResume i .loopCheck s).queue =
        s.queue ++ [⟨s.now + 0, 0, s.nextEid, .prod i (.procStart vid)⟩] ∧
      (prodResume i .loopCheck s).now = s.now ∧
      (prodResume i .loopCheck s).raw_material_stock
        = s.raw_material_stock - ((m : Nat) : Int) ∧
      (prodResume i .loopCheck s).raw_material_threshold
        = s.raw_material_threshold := by
  refine ⟨(randint 5 10
      (produce_vehicle (getLine s i) s.now s.rng s.wallIdx).2.2.1).2,
    (produce_vehicle (getLine s i) s.now s.rng s.wallIdx).2.1.id,
    (randint_mem 5 10 (by norm_num) _).1,
    (randint_mem 5 10 (by norm_num) _).2, ?_, ?_, ?_, ?_⟩ <;>
    (rw [prodResume, if_neg h]; dsimp only [schedule, setLine])

theorem prodResume_step_spec (i : Nat) (pc : ProdPC) (s : EngState)
    (h : pc ≠ ProdPC.loopCheck) :
    ∃ d pc2, 0 ≤ d ∧ lineSlack pc ≤ d + lineSlack pc2 ∧
      (prodResume i pc s).queue =
        s.queue ++ [⟨s.now + d, 1, s.nextEid, .prod i pc2⟩] ∧
      (prodResume i pc s).now = s.now ∧
      (prodResume i pc s).raw_material_stock = s.raw_material_stock ∧
      (prodResume i pc s).raw_material_threshold
        = s.raw_material_threshold := by
  cases pc with
  | loopCheck => exact absurd rfl h
  | procStart vid =>
    have hu := uniform_mem 1 3 (by norm_num) s.rng
    refine ⟨(uniform 1 3 s.rng).2, .weldDone vid, by linarith [hu.1],
      by simp only [lineSlack]; linarith [hu.1], ?_, ?_, ?_, ?_⟩ <;>
      (rw [prodResume]; dsimp only [schedule, setLine])
  | weldDone vid =>
    have hu := uniform_mem 2 5 (by norm_num) s.rng
    refine ⟨(uniform 2 5 s.rng).2, .asmDone vid, by linarith [hu.1],
      by simp only [lineSlack]; linarith [hu.1], ?_, ?_, ?_, ?_⟩ <;>
      (rw [prodResume]; dsimp only [schedule, setLine])
  | asmDone vid =>
    have hu := uniform_mem 1 3 (by norm_num)
      (randint 150 400 (choice ["A", "B", "C"] "A" s.rng).1).1
    refine ⟨(uniform 1 3
        (randint 150 400 (choice ["A", "B", "C"] "A" s.rng).1).1).2,
      .paintDone vid, by linarith [hu.1],
      by simp only [lineSlack]; linarith [hu.1], ?_, ?_, ?_, ?_⟩ <;>
      (rw [prodResume]; dsimp only [schedule, setLine])
  | paintDone vid =>
    have hu := uniform_mem 1 (5/2) (by norm_num)
      (choice ["Red", "Blue", "Green", "Black", "White", "Silver"]
        "Red" s.rng).1
    refine ⟨(uniform 1 (5/2)
        (choice ["Red", "Blue", "Green", "Black", "White", "Silver"]
          "Red" s.rng).1).2,
      .inspDone vid, by linarith [hu.1],
      by simp only [lineSlack]; linarith [hu.1], ?_, ?_, ?_, ?_⟩ <;>
      (rw [prodResume]; dsimp only [schedule, setLine])
  | inspDone vid =>
    have hu := uniform_mem 2 4 (by norm_num) s.rng
    refine ⟨(uniform 2 4 s.rng).2, .testDone vid, by linarith [hu.1],
      by simp only [lineSlack]; linarith [hu.1], ?_, ?_, ?_, ?_⟩ <;>
      (rw [prodResume]; dsimp only [schedule, setLine])
  | testDone vid =>
    have hu := uniform_mem (1/2) (3/2) (by norm_num) (uniform 0 1 s.rng).1
    refine ⟨(uniform (1/2) (3/2) (uniform 0 1 s.rng).1).2, .packDone vid,
      by linarith [hu.1],
      by simp only [lineSlack]; linarith [hu.1], ?_, ?_, ?_, ?_⟩ <;>
      (rw [prodResume]; dsimp only [schedule, setLine])
  | packDone vid =>
    refine ⟨0, .afterProc, le_refl 0,
      by simp only [lineSlack]; linarith, ?_, ?_, ?_, ?_⟩ <;>
      (rw [prodResume]; dsimp only [schedule, setLine])
  | afterProc =>
    have hu := uniform_mem (1/2) 2 (by norm_num) s.rng
    refine ⟨(uniform (1/2) 2 s.rng).2, .loopCheck, by linarith [hu.1],
      by simp only [lineSlack]; linarith [hu.1], ?_, ?_, ?_, ?_⟩ <;>
      (rw [prodResume]; dsimp only [schedule, setLine])

theorem EngInv_rebuild (s s1 : EngState) (e ev : Ev) (rest : List Ev)
    (hpop : popMin s.queue = some (e, rest)) (inv : EngInv s)
    (hq : s1.queue = rest ++ [ev]) (hnow : s1.now = e.time)
    (ho : evOwner ev = evOwner e)
    (htime : e.time ≤ ev.time)
    (hth : s1.raw_material_threshold = s.raw_material_threshold)
    (hbound : ∀ e0 ∈ rest ++ [ev], ∀ e1 ∈ rest ++ [ev],
      ∀ es ∈ rest ++ [ev],
      evOwner e0 = .line 0 → evOwner e1 = .line 1 →
      evOwner es = .supplyProc →
      1 + lineCap (evLineF e0) (evSupplyDeadline es)
        + lineCap (evLineF e1) (evSupplyDeadline es)
        ≤ (s1.raw_material_stock : ℚ)) :
    EngInv s1 := by
  obtain ⟨hperm, hmin⟩ := popMin_spec s.queue e rest hpop
  refine ⟨?_, ?_, hth.trans inv.thresh, ?_⟩
  · intro x hx
    rw [hq] at hx
    rw [hnow]
    rcases List.mem_append.mp hx with hx | hx
    · exact hmin x hx
    · rw [List.mem_singleton.mp hx]
      exact htime
  · rw [hq]
    have h1 : ((rest ++ [ev]).map evOwner).Perm
        (evOwner ev :: rest.map evOwner) := by
      simpa using List.perm_append_singleton (evOwner ev) (rest.map evOwner)
    refine h1.trans ?_
    rw [ho]
    have h2 : (evOwner e :: rest.map evOwner) = (e :: rest).map evOwner := rfl
    rw [h2]
    exact (hperm.map evOwner).symm.trans inv.owners
  · intro e0 he0 e1 he1 es hes
    rw [hq] at he0 he1 hes
    exact hbound e0 he0 e1 he1 es hes

theorem EngInv_passive_step (s s1 : EngState) (e ev : Ev) (rest : List Ev)
    (hpop : popMin s.queue = some (e, rest)) (inv : EngInv s)
    (hq : s1.queue = rest ++ [ev]) (hnow : s1.now = e.time)
    (ho : evOwner ev = evOwner e) (htime : e.time ≤ ev.time)
    (h0 : evOwner e ≠ .line 0) (h1 : evOwner e ≠ .line 1)
    (h2 : evOwner e ≠ .supplyProc)
    (hst : s1.raw_material_stock = s.raw_material_stock)
    (hth : s1.raw_material_threshold = s.raw_material_threshold) :
    EngInv s1 := by
  obtain ⟨hperm, hmin⟩ := popMin_spec s.queue e rest hpop
  have hsub : ∀ x ∈ rest, x ∈ s.queue := fun x hx =>
    hperm.mem_iff.mpr (List.mem_cons_of_mem _ hx)
  refine EngInv_rebuild s s1 e ev rest hpop inv hq hnow ho htime hth ?_
  intro e0 he0 e1 he1 es hes ho0 ho1 hos
  have he0r : e0 ∈ rest := by
    rcases List.mem_append.mp he0 with hx | hx
    · exact hx
    · rw [List.mem_singleton.mp hx] at ho0
      rw [ho] at ho0
      exact absurd ho0 h0
  have he1r : e1 ∈ rest := by
    rcases List.mem_append.mp he1 with hx | hx
    · exact hx
    · rw [List.mem_singleton.mp hx] at ho1
      rw [ho] at ho1
      exact absurd ho1 h1
  have hesr : es ∈ rest := by
    rcases List.mem_append.mp hes with hx | hx
    · exact hx
    · rw [List.mem_singleton.mp hx] at hos
      rw [ho] at hos
      exact absurd hos h2
  rw [hst]
  exact inv.bound e0 (hsub e0 he0r) e1 (hsub e1 he1r) es (hsub es hesr)
    ho0 ho1 hos

theorem prod_bound_transfer (s : EngState) (e ev : Ev) (rest : List Ev)
    (i : Nat)
    (hpop : popMin s.queue = some (e, rest)) (inv : EngInv s)
    (hoe : evOwner e = .line i) (hov : evOwner ev = .line i)
    (hi : i = 0 ∨ i = 1) (stockq : ℚ)
    (harith : ∀ Fo X : ℚ, e.time ≤ X →
      1 + lineCap (evLineF e) X + lineCap Fo X
        ≤ (s.raw_material_stock : ℚ) →
      1 + lineCap (evLineF ev) X + lineCap Fo X ≤ stockq) :
    ∀ e0 ∈ rest ++ [ev], ∀ e1 ∈ rest ++ [ev], ∀ es ∈ rest ++ [ev],
      evOwner e0 = .line 0 → evOwner e1 = .line 1 →
      evOwner es = .supplyProc →
      1 + lineCap (evLineF e0) (evSupplyDeadline es)
        + lineCap (evLineF e1) (evSupplyDeadline es) ≤ stockq := by
  obtain ⟨hperm, hmin⟩ := popMin_spec s.queue e rest hpop
  have hmem_e : e ∈ s.queue := hperm.mem_iff.mpr (List.mem_cons_self _ _)
  have hsub : ∀ x ∈ rest, x ∈ s.queue := fun x hx =>
    hperm.mem_iff.mpr (List.mem_cons_of_mem _ hx)
  have hnotin := owner_not_in_rest s.queue e rest hperm inv.owners
  intro e0 he0 e1 he1 es hes ho0 ho1 hos
  have hesr : es ∈ rest := by
    rcases List.mem_append.mp hes with hx | hx
    · exact hx
    · rw [List.mem_singleton.mp hx] at hos
      rw [hov] at hos
      exact absurd hos (by simp)
  have hX : e.time ≤ evSupplyDeadline es :=
    le_trans (hmin es hesr) (evSupplyDeadline_ge_time es hos)
  rcases hi with rfl | rfl
  · have he0v : e0 = ev := by
      rcases List.mem_append.mp he0 with hx | hx
      · exact absurd (ho0.trans hoe.symm) (hnotin e0 hx)
      · exact List.mem_singleton.mp hx
    have he1r : e1 ∈ rest := by
      rcases List.mem_append.mp he1 with hx | hx
      · exact hx
      · rw [List.mem_singleton.mp hx] at ho1
        rw [hov] at ho1
        exact absurd ho1 (by simp)
    subst he0v
    have hold := inv.bound e hmem_e e1 (hsub e1 he1r) es (hsub es hesr)
      hoe ho1 hos
    exact harith (evLineF e1) (evSupplyDeadline es) hX hold
  · have he1v : e1 = ev := by
      rcases List.mem_append.mp he1 with hx | hx
      · exact absurd (ho1.trans hoe.symm) (hnotin e1 hx)
      · exact List.mem_singleton.mp hx
    have he0r : e0 ∈ rest := by
      rcases List.mem_append.mp he0 with hx | hx
      · exact hx
      · rw [List.mem_singleton.mp hx] at ho0
        rw [hov] at ho0
        exact absurd ho0 (by simp)
    subst he1v
    have hold := inv.bound e0 (hsub e0 he0r) e hmem_e es (hsub es hesr)
      ho0 hoe hos
    have hold2 : 1 + lineCap (evLineF e) (evSupplyDeadline es)
        + lineCap (evLineF e0) (evSupplyDeadline es)
        ≤ (s.raw_material_stock : ℚ) := by linarith
    have hres := harith (evLineF e0) (evSupplyDeadline es) hX hold2
    linarith

theorem supply_bound_transfer (s : EngState) (e ev : Ev) (rest : List Ev)
    (hpop : popMin s.queue = some (e, rest)) (inv : EngInv s)
    (hoe : evOwner e = .supplyProc) (hov : evOwner ev = .supplyProc)
    (stockq : ℚ)
    (harith : ∀ F0 F1 : ℚ, e.time ≤ F0 → e.time ≤ F1 →
      1 + lineCap F0 (evSupplyDeadline e) + lineCap F1 (evSupplyDeadline e)
        ≤ (s.raw_material_stock : ℚ) →
      1 + lineCap F0 (evSupplyDeadline ev)
        + lineCap F1 (evSupplyDeadline ev) ≤ stockq) :
    ∀ e0 ∈ rest ++ [ev], ∀ e1 ∈ rest ++ [ev], ∀ es ∈ rest ++ [ev],
      evOwner e0 = .line 0 → evOwner e1 = .line 1 →
      evOwner es = .supplyProc →
      1 + lineCap (evLineF e0) (evSupplyDeadline es)
        + lineCap (evLineF e1) (evSupplyDeadline es) ≤ stockq := by
  obtain ⟨hperm, hmin⟩ := popMin_spec s.queue e rest hpop
  have hmem_e : e ∈ s.queue := hperm.mem_iff.mpr (List.mem_cons_self _ _)
  have hsub : ∀ x ∈ rest, x ∈ s.queue := fun x hx =>
    hperm.mem_iff.mpr (List.mem_cons_of_mem _ hx)
  have hnotin := owner_not_in_rest s.queue e rest hperm inv.owners
  intro e0 he0 e1 he1 es hes ho0 ho1 hos
  have hesv : es = ev := by
    rcases List.mem_append.mp hes with hx | hx
    · exact absurd (hos.trans hoe.symm) (hnotin es hx)
    · exact List.mem_singleton.mp hx
  have he0r : e0 ∈ rest := by
    rcases List.mem_append.mp he0 with hx | hx
    · exact hx
    · rw [List.mem_singleton.mp hx] at ho0
      rw [hov] at ho0
      exact absurd ho0 (by simp)
  have he1r : e1 ∈ rest := by
    rcases List.mem_append.mp he1 with hx | hx
    · exact hx
    · rw [List.mem_singleton.mp hx] at ho1
      rw [hov] at ho1
      exact absurd ho1 (by simp)
  subst hesv
  have hF0 : e.time ≤ evLineF e0 :=
    le_trans (hmin e0 he0r) (evLineF_ge_time e0)
  have hF1 : e.time ≤ evLineF e1 :=
    le_trans (hmin e1 he1r) (evLineF_ge_time e1)
  have hold := inv.bound e0 (hsub e0 he0r) e1 (hsub e1 he1r) e hmem_e
    ho0 ho1 hoe
  exact harith (evLineF e0) (evLineF e1) hF0 hF1 hold

theorem supplyResume_start_spec (s : EngState) :
    (supplyResume .start s).queue
      = s.queue ++ [⟨s.now + 20, 1, s.nextEid, .supply .check⟩] ∧
    (supplyResume .start s).now = s.now ∧
    (supplyResume .start s).raw_material_stock = s.raw_material_stock ∧
    (supplyResume .start s).raw_material_threshold
      = s.raw_material_threshold := by
  refine ⟨?_, ?_, ?_, ?_⟩ <;> (rw [supplyResume]; dsimp only [schedule])

theorem supplyResume_check_low_spec (s : EngState)
    (h : s.raw_material_stock < s.raw_material_threshold) :
    (supplyResume .check s).queue
      = s.queue ++ [⟨s.now + 0, 0, s.nextEid, .supply .childStart⟩] ∧
    (supplyResume .check s).now = s.now ∧
    (supplyResume .check s).raw_material_stock = s.raw_material_stock ∧
    (supplyResume .check s).raw_material_threshold
      = s.raw_material_threshold := by
  refine ⟨?_, ?_, ?_, ?_⟩ <;>
    (rw [supplyResume, if_pos h]; dsimp only [schedule])

theorem supplyResume_check_high_spec (s : EngState)
    (h : ¬ s.raw_material_stock < s.raw_material_threshold) :
    (supplyResume .check s).queue
      = s.queue ++ [⟨s.now + 20, 1, s.nextEid, .supply .check⟩] ∧
    (supplyResume .check s).now = s.now ∧
    (supplyResume .check s).raw_material_stock = s.raw_material_stock ∧
    (supplyResume .check s).raw_material_threshold
      = s.raw_material_threshold := by
  refine ⟨?_, ?_, ?_, ?_⟩ <;>
    (rw [supplyResume, if_neg h]; dsimp only [schedule])

theorem supplyResume_childStart_spec (s : EngState) :
    (supplyResume .childStart s).queue
      = s.queue ++ [⟨s.now + (uniform 10 20 s.rng).2, 1, s.nextEid,
          .supply .childDone⟩] ∧
    (supplyResume .childStart s).now = s.now ∧
    (supplyResume .childStart s).raw_material_stock
      = s.raw_material_stock ∧
    (supplyResume .childStart s).raw_material_threshold
      = s.raw_material_threshold := by
  refine ⟨?_, ?_, ?_, ?_⟩ <;> (rw [supplyResume]; dsimp only [schedule])

theorem supplyResume_childDone_spec (s : EngState) :
    (supplyResume .childDone s).queue
      = s.queue ++ [⟨s.now + 0, 1, s.nextEid, .supply .afterChild⟩] ∧
    (supplyResume .childDone s).now = s.now ∧
    (supplyResume .childDone s).raw_material_stock
      = s.raw_material_stock + ((randint 300 500 s.rng).2 : Int) ∧
    (supplyResume .childDone s).raw_material_threshold
      = s.raw_material_threshold := by
  refine ⟨?_, ?_, ?_, ?_⟩ <;> (rw [supplyResume]; dsimp only [schedule])

theorem supplyResume_afterChild_spec (s : EngState) :
    (supplyResume .afterChild s).queue
      = s.queue ++ [⟨s.now + 20, 1, s.nextEid, .supply .check⟩] ∧
    (supplyResume .afterChild s).now = s.now ∧
    (supplyResume .afterChild s).raw_material_stock
      = s.raw_material_stock ∧
    (supplyResume .afterChild s).raw_material_threshold
      = s.raw_material_threshold := by
  refine ⟨?_, ?_, ?_, ?_⟩ <;> (rw [supplyResume]; dsimp only [schedule])

theorem inv_step (s : EngState) (e : Ev) (rest : List Ev)
    (hpop : popMin s.queue = some (e, rest)) (inv : EngInv s) :
    EngInv (resume e.act { s with now := e.time, queue := rest }) := by
  cases hact : e.act with
  | prod i pc =>
    simp only [resume]
    have hoe : evOwner e = .line i := by rw [evOwner, hact]; rfl
    have hmem_e : e ∈ s.queue :=
      (popMin_spec s.queue e rest hpop).1.mem_iff.mpr
        (List.mem_cons_self _ _)
    have hi : i = 0 ∨ i = 1 := by
      have h1 : Owner.line i ∈ s.queue.map evOwner :=
        List.mem_map.mpr ⟨e, hmem_e, hoe⟩
      have h2 := inv.owners.mem_iff.mp h1
      simpa using h2
    by_cases hpc : pc = ProdPC.loopCheck
    · subst hpc
      by_cases hlt : s.raw_material_stock < 1
      · exact absurd (EngInv_stock_pos s inv) (by omega)
      · obtain ⟨m, vid, hm5, hm10, hq, hnow, hst, hth⟩ :=
          prodResume_consume_spec i { s with now := e.time, queue := rest }
            hlt
        dsimp only at hq hnow hst hth
        refine EngInv_rebuild s _ e _ rest hpop inv hq hnow
          (Eq.trans (by rfl) hoe.symm) (by dsimp only; linarith) hth ?_
        refine prod_bound_transfer s e _ rest i hpop inv hoe (by rfl)
          hi _ ?_
        intro Fo X hX hold
        have hFe : evLineF e = e.time := by
          simp [evLineF, hact, lineSlack]
        have hFev : evLineF
            (⟨e.time + 0, 0, s.nextEid,
              .prod i (.procStart vid)⟩ : Ev) = e.time + 8 := by
          simp [evLineF, lineSlack]
        have hcons := lineCap_consume e.time X hX
        rw [hFe] at hold
        rw [hFev, hst]
        have hm10q : ((m : Nat) : ℚ) ≤ 10 := by exact_mod_cast hm10
        push_cast
        linarith
    · obtain ⟨d, pc2, hd0, hslack, hq, hnow, hst, hth⟩ :=
        prodResume_step_spec i pc { s with now := e.time, queue := rest }
          hpc
      dsimp only at hq hnow hst hth
      refine EngInv_rebuild s _ e _ rest hpop inv hq hnow
        (Eq.trans (by rfl) hoe.symm) (by dsimp only; linarith) hth ?_
      refine prod_bound_transfer s e _ rest i hpop inv hoe (by rfl)
        hi _ ?_
      intro Fo X hX hold
      have hFe : evLineF e = e.time + lineSlack pc := by
        simp [evLineF, hact]
      have hFev : evLineF (⟨e.time + d, 1, s.nextEid, .prod i pc2⟩ : Ev)
          = e.time + d + lineSlack pc2 := by simp [evLineF]
      rw [hFe] at hold
      rw [hFev, hst]
      have hanti := lineCap_anti (e.time + lineSlack pc)
        (e.time + d + lineSlack pc2) X (by linarith)
      linarith
  | maint pc =>
    simp only [resume]
    have hoe : evOwner e = .maintenanceProc := by rw [evOwner, hact]; rfl
    obtain ⟨ev, hq, hov, htime, hnow, hst, hth⟩ :=
      maintResume_spec pc { s with now := e.time, queue := rest }
    dsimp only at hq htime hnow hst hth
    exact EngInv_passive_step s _ e ev rest hpop inv hq hnow
      (hov.trans hoe.symm) htime (by rw [hoe]; decide)
      (by rw [hoe]; decide) (by rw [hoe]; decide) hst hth
  | qual pc =>
    simp only [resume]
    have hoe : evOwner e = .qualityProc := by rw [evOwner, hact]; rfl
    obtain ⟨ev, hq, hov, htime, hnow, hst, hth⟩ :=
      qualResume_spec pc { s with now := e.time, queue := rest }
    dsimp only at hq htime hnow hst hth
    exact EngInv_passive_step s _ e ev rest hpop inv hq hnow
      (hov.trans hoe.symm) htime (by rw [hoe]; decide)
      (by rw [hoe]; decide) (by rw [hoe]; decide) hst hth
  | supply pc =>
    simp only [resume]
    have hoe : evOwner e = .supplyProc := by rw [evOwner, hact]; rfl
    cases pc with
    | start =>
      obtain ⟨hq, hnow, hst, hth⟩ :=
        supplyResume_start_spec { s with now := e.time, queue := rest }
      dsimp only at hq hnow hst hth
      refine EngInv_rebuild s _ e _ rest hpop inv hq hnow
        (Eq.trans (by rfl) hoe.symm) (by dsimp only; linarith) hth ?_
      refine supply_bound_transfer s e _ rest hpop inv hoe (by rfl) _ ?_
      intro F0 F1 hF0 hF1 hold
      rw [hst]
      have hXold : evSupplyDeadline e = e.time + 40 := by
        simp [evSupplyDeadline, hact, supplyDeadline]
      have hXnew : evSupplyDeadline
          (⟨e.time + 20, 1, s.nextEid, .supply .check⟩ : Ev)
          = e.time + 20 + 20 := by simp [evSupplyDeadline, supplyDeadline]
      rw [hXold] at hold
      rw [hXnew]
      exact bound_of_deadline_le F0 F1 _ _ _ (by linarith) hold
    | check =>
      by_cases hlt : s.raw_material_stock < s.raw_material_threshold
      · obtain ⟨hq, hnow, hst, hth⟩ :=
          supplyResume_check_low_spec
            { s with now := e.time, queue := rest } hlt
        dsimp only at hq hnow hst hth
        refine EngInv_rebuild s _ e _ rest hpop inv hq hnow
          (Eq.trans (by rfl) hoe.symm) (by dsimp only; linarith) hth ?_
        refine supply_bound_transfer s e _ rest hpop inv hoe (by rfl) _ ?_
        intro F0 F1 hF0 hF1 hold
        rw [hst]
        have hXold : evSupplyDeadline e = e.time + 20 := by
          simp [evSupplyDeadline, hact, supplyDeadline]
        have hXnew : evSupplyDeadline
            (⟨e.time + 0, 0, s.nextEid, .supply .childStart⟩ : Ev)
            = e.time + 20 := by simp [evSupplyDeadline, supplyDeadline]
        rw [hXold] at hold
        rw [hXnew]
        exact hold
      · obtain ⟨hq, hnow, hst, hth⟩ :=
          supplyResume_check_high_spec
            { s with now := e.time, queue := rest } hlt
        dsimp only at hq hnow hst hth
        have hstock : (200:Int) ≤ s.raw_material_stock := by
          have hthr := inv.thresh
          omega
        refine EngInv_rebuild s _ e _ rest hpop inv hq hnow
          (Eq.trans (by rfl) hoe.symm) (by dsimp only; linarith) hth ?_
        refine supply_bound_transfer s e _ rest hpop inv hoe (by rfl) _ ?_
        intro F0 F1 hF0 hF1 hold
        rw [hst]
        have hXnew : evSupplyDeadline
            (⟨e.time + 20, 1, s.nextEid, .supply .check⟩ : Ev)
            = e.time + 20 + 20 := by simp [evSupplyDeadline, supplyDeadline]
        rw [hXnew]
        have heq : e.time + 20 + 20 = e.time + 40 := by ring
        rw [heq]
        have h0 := lineCap_upper F0 e.time hF0
        have h1 := lineCap_upper F1 e.time hF1
        have hsq : (200:ℚ) ≤ (s.raw_material_stock : ℚ) := by
          exact_mod_cast hstock
        linarith
    | childStart =>
      obtain ⟨hq, hnow, hst, hth⟩ :=
        supplyResume_childStart_spec { s with now := e.time, queue := rest }
      dsimp only at hq hnow hst hth
      have hu := uniform_mem 10 20 (by norm_num) s.rng
      refine EngInv_rebuild s _ e _ rest hpop inv hq hnow
        (Eq.trans (by rfl) hoe.symm) (by dsimp only; linarith [hu.1])
        hth ?_
      refine supply_bound_transfer s e _ rest hpop inv hoe (by rfl) _ ?_
      intro F0 F1 hF0 hF1 hold
      rw [hst]
      have hXold : evSupplyDeadline e = e.time + 20 := by
        simp [evSupplyDeadline, hact, supplyDeadline]
      have hXnew : evSupplyDeadline
          (⟨e.time + (uniform 10 20 s.rng).2, 1, s.nextEid,
            .supply .childDone⟩ : Ev)
          = e.time + (uniform 10 20 s.rng).2 := by
        simp [evSupplyDeadline, supplyDeadline]
      rw [hXold] at hold
      rw [hXnew]
      exact bound_of_deadline_le F0 F1 _ _ _ (by linarith [hu.2]) hold
    | childDone =>
      obtain ⟨hq, hnow, hst, hth⟩ :=
        supplyResume_childDone_spec { s with now := e.time, queue := rest }
      dsimp only at hq hnow hst hth
      have hm := randint_mem 300 500 (by norm_num) s.rng
      refine EngInv_rebuild s _ e _ rest hpop inv hq hnow
        (Eq.trans (by rfl) hoe.symm) (by dsimp only; linarith) hth ?_
      refine supply_bound_transfer s e _ rest hpop inv hoe (by rfl) _ ?_
      intro F0 F1 hF0 hF1 hold
      rw [hst]
      have hXold : evSupplyDeadline e = e.time := by
        simp [evSupplyDeadline, hact, supplyDeadline]
      have hXnew : evSupplyDeadline
          (⟨e.time + 0, 1, s.nextEid, .supply .afterChild⟩ : Ev)
          = e.time + 40 := by simp [evSupplyDeadline, supplyDeadline]
      rw [hXold] at hold
      rw [hXnew]
      have h0 := lineCap_add_le F0 e.time 40 (by norm_num)
      have h1 := lineCap_add_le F1 e.time 40 (by norm_num)
      have hmq : (300:ℚ) ≤ ((randint 300 500 s.rng).2 : ℚ) := by
        exact_mod_cast hm.1
      push_cast
      linarith
    | afterChild =>
      obtain ⟨hq, hnow, hst, hth⟩ :=
        supplyResume_afterChild_spec { s with now := e.time, queue := rest }
      dsimp only at hq hnow hst hth
      refine EngInv_rebuild s _ e _ rest hpop inv hq hnow
        (Eq.trans (by rfl) hoe.symm) (by dsimp only; linarith) hth ?_
      refine supply_bound_transfer s e _ rest hpop inv hoe (by rfl) _ ?_
      intro F0 F1 hF0 hF1 hold
      rw [hst]
      have hXold : evSupplyDeadline e = e.time + 40 := by
        simp [evSupplyDeadline, hact, supplyDeadline]
      have hXnew : evSupplyDeadline
          (⟨e.time + 20, 1, s.nextEid, .supply .check⟩ : Ev)
          = e.time + 20 + 20 := by simp [evSupplyDeadline, supplyDeadline]
      rw [hXold] at hold
      rw [hXnew]
      exact bound_of_deadline_le F0 F1 _ _ _ (by linarith) hold

theorem inv_envRun (fuel : Nat) (horizon : ℚ) (s : EngState)
    (inv : EngInv s) :
    EngInv (envRun resumeOk fuel horizon s).2 := by
  induction fuel generalizing s with
  | zero => exact inv
  | succ n ih =>
    unfold envRun
    match hq : popMin s.queue with
    | none => exact inv
    | some (e, rest) =>
      dsimp only
      split
      · simp only [resumeOk]
        exact ih _ (inv_step s e rest hq inv)
      · exact inv

theorem inv_start (seed : Nat) :
    EngInv (startProcesses (engineInitState seed)) := by
  have hq : (startProcesses (engineInitState seed)).queue =
      [⟨0 + 0, 0, 0, .prod 0 .loopCheck⟩, ⟨0 + 0, 0, 1, .prod 1 .loopCheck⟩,
       ⟨0 + 0, 0, 2, .maint .start⟩, ⟨0 + 0, 0, 3, .supply .start⟩,
       ⟨0 + 0, 0, 4, .qual .start⟩] := rfl
  have hnow : (startProcesses (engineInitState seed)).now = 0 := rfl
  have hst : (startProcesses (engineInitState seed)).raw_material_stock
      = 1000 := rfl
  refine ⟨?_, ?_, rfl, ?_⟩
  · intro x hx
    rw [hq] at hx
    rw [hnow]
    fin_cases hx <;> norm_num
  · rw [hq]
    exact List.Perm.refl _
  · intro e0 he0 e1 he1 es hes ho0 ho1 hos
    rw [hq] at he0 he1 hes
    rw [hst]
    fin_cases he0 <;> simp [evOwner, actionOwner] at ho0 <;>
      fin_cases he1 <;> simp [evOwner, actionOwner] at ho1 <;>
        fin_cases hes <;> simp [evOwner, actionOwner] at hos <;>
          norm_num [evLineF, evSupplyDeadline, lineSlack, supplyDeadline,
            lineCap_zero_forty]

/-- Claim C1: for every run of the simulation — any fuel bound on the
event loop (and hence any intermediate point during the run, since the
theorem holds for every fuel), any simulation duration and any seed —
the engine's raw-material stock is non-negative.  The production loop's
check-and-decrement (`engine.py:78-88`) can overshoot a single check by
at most 9 units in principle, but under the actual timing of the source
it never does: consecutive consumptions of one line are at least 8 time
units apart (the six-station pipeline plus the inter-arrival delay,
`engine.py:92-94` and `models.py:133-150`), and whenever the stock is
below the 200 threshold the supply chain lands a replenishment of at
least 300 units within at most 40 time units (`engine.py:142-162`), so
the stock always exceeds what the two lines can consume before the next
replenishment.  This is proved by the inductive invariant `EngInv`. -/
theorem C1_stock_nonnegative (fuel : Nat) (duration : ℚ) (seed : Nat) :
    0 ≤ (runSimulationState resumeOk fuel duration seed).raw_material_stock := by
  have hst : (startProcesses (engineInitState seed)).raw_material_stock
      = 1000 := rfl
  have hrw : runSimulationState resumeOk fuel duration seed
      = if duration ≤ 0 then startProcesses (engineInitState seed)
        else (envRun resumeOk fuel duration
          (startProcesses (engineInitState seed))).2 := rfl
  rw [hrw]
  by_cases hd : duration ≤ 0
  · rw [if_pos hd, hst]
    norm_num
  · rw [if_neg hd]
    have h1 := EngInv_stock_pos _
      (inv_envRun fuel duration _ (inv_start seed))
    omega

end DigitalTwin
